import Mathlib

/-!
Shallow embedding of the MakeCode Arcade inverse-kinematics chain extension
(namespace `ikchain` of `custom.ts`): the chain data model, the FABRIK solver
(`updatePositions`), chain construction and the attachment subsystem
(`addJointSprite`, `addMidSegmentSprite` and the per-frame sprite sync).
JavaScript numbers are idealised as real numbers; the mutable `IKChain` object
becomes explicit state passing; nullable sprite references become `Option`.
The drawing methods (pure rasterisation with no effect on chain state) are not
modelled.
-/

namespace ikchain

/-- External sprite collaborator: the only part of a MakeCode `Sprite` the core
reads or writes is its position `(x, y)`. -/
@[ext]
structure Sprite where
  x : ℝ
  y : ℝ

instance : Inhabited Sprite := ⟨⟨0, 0⟩⟩

/-- Rigid link (class `Segment` of `custom.ts`): fixed `length`, mutable
endpoints and a derived `angle`.  All fields are initialised to `0` except
`length`, which the constructor sets. -/
@[ext]
structure Segment where
  startX : ℝ
  startY : ℝ
  endX : ℝ
  endY : ℝ
  angle : ℝ
  length : ℝ

instance : Inhabited Segment := ⟨⟨0, 0, 0, 0, 0, 0⟩⟩

/-- Entry of the `midSegmentSprites` list: a bound sprite, the index of the
segment it rides on, and its interpolation position along that segment.
`addMidSegmentSprite` only stores indices it has checked to be in range, so
the stored index is a natural number. -/
@[ext]
structure MidInfo where
  sprite : Sprite
  segmentIndex : ℕ
  position : ℝ

instance : Inhabited MidInfo := ⟨⟨default, 0, 0⟩⟩

/-- State of an `IKChain` object: segment list, head (target) and base sprite
references, accumulated total length, cosmetic attributes and the two
attachment lists. -/
@[ext]
structure IKChain where
  segments : List Segment
  headSprite : Option Sprite
  baseSprite : Option Sprite
  totalLength : ℝ
  thickness : ℝ
  color : ℝ
  jointSprites : List (Option Sprite)
  midSegmentSprites : List MidInfo

/-- Math.atan2 y x, modelled as the argument of the complex number `x + y·i`.
Its range is `(-π, π]` and `atan2 0 0 = 0`, matching JavaScript up to the
behaviour on signed zeros (which have no counterpart in `ℝ`). -/
noncomputable def atan2 (y x : ℝ) : ℝ := Complex.arg ⟨x, y⟩

/-- Math.sqrt (dx·dx + dy·dy), the euclidean norm computation the source
writes out inline at every distance measurement. -/
noncomputable def norm2 (dx dy : ℝ) : ℝ := Real.sqrt (dx * dx + dy * dy)

/-- Loop body shared by `initializePositions` and the unreachable-target
branch of `updatePositions` (lines 143–152): walk the segment list once,
pinning each start to the running point, storing the common angle, and placing
each end one `length` further along direction `a`; the running point advances
to the end just written. -/
noncomputable def extendChain (a : ℝ) (px py : ℝ) : List Segment → List Segment
  | [] => []
  | seg :: rest =>
    let ex := px + Real.cos a * seg.length
    let ey := py + Real.sin a * seg.length
    ({ seg with startX := px, startY := py, angle := a, endX := ex, endY := ey })
      :: extendChain a ex ey rest

/-- Body of the forward-reaching loop (lines 159–180) for one segment, with
the accumulator `(px, py)` standing for the point the segment's end is pinned
to: the target for the last segment, the updated start of the follower for the
others (the source's write into `segments[i-1].endX/Y` and the follower's read
of `segments[i+1].startX/Y` are the same data handoff). -/
noncomputable def forwardSegStep (px py : ℝ) (seg : Segment) : Segment :=
  let s0 : Segment := { seg with endX := px, endY := py }
  let dx := s0.endX - s0.startX
  let dy := s0.endY - s0.startY
  let currentLength := norm2 dx dy
  if currentLength > 0 then
    let ratio := s0.length / currentLength
    { s0 with startX := s0.endX - dx * ratio, startY := s0.endY - dy * ratio }
  else s0

/-- Forward-reaching pass over the segments given in reverse order (the
source iterates `i` from `segments.length - 1` down to `0`). -/
noncomputable def forwardPassRev (px py : ℝ) : List Segment → List Segment
  | [] => []
  | seg :: rest =>
    let s := forwardSegStep px py seg
    s :: forwardPassRev s.startX s.startY rest

/-- Forward-reaching pass: pin the last segment's end to the target and walk
tail to head, re-anchoring every segment at its follower's start. -/
noncomputable def forwardPass (tx ty : ℝ) (segs : List Segment) : List Segment :=
  (forwardPassRev tx ty segs.reverse).reverse

/-- Body of the backward-reaching loop (lines 186–209) for one segment, with
the accumulator `(px, py)` standing for the point the segment's start is
pinned to: the base for the first segment, the updated end of the predecessor
for the others.  The derived angle is recomputed unconditionally. -/
noncomputable def backwardSegStep (px py : ℝ) (seg : Segment) : Segment :=
  let s0 : Segment := { seg with startX := px, startY := py }
  let dx := s0.endX - s0.startX
  let dy := s0.endY - s0.startY
  let currentLength := norm2 dx dy
  let s1 :=
    if currentLength > 0 then
      let ratio := s0.length / currentLength
      { s0 with endX := s0.startX + dx * ratio, endY := s0.startY + dy * ratio }
    else s0
  { s1 with angle := atan2 (s1.endY - s1.startY) (s1.endX - s1.startX) }

/-- Backward-reaching pass: pin the first segment's start to the base and walk
head to tail, re-anchoring every segment at its predecessor's end. -/
noncomputable def backwardPass (px py : ℝ) : List Segment → List Segment
  | [] => []
  | seg :: rest =>
    let s := backwardSegStep px py seg
    s :: backwardPass s.endX s.endY rest

/-- One FABRIK iteration of the reachable-target branch: a forward-reaching
pass toward the target followed by a backward-reaching pass from the base. -/
noncomputable def fabrikIteration (bx bY tx ty : ℝ) (segs : List Segment) : List Segment :=
  backwardPass bx bY (forwardPass tx ty segs)

/-- Joint coordinate computed by `updateJointSprite` (lines 85–106): the base
sprite's position for joint `0`, the last segment's end for joint
`segments.length`, and the end of segment `jointIndex - 1` otherwise.  The
source reads `this.baseSprite.x` without a null check; the `default` sprite
stands for that never-exercised access. -/
noncomputable def jointPos (c : IKChain) (jointIndex : ℕ) : ℝ × ℝ :=
  if jointIndex = 0 then
    let b := c.baseSprite.getD default
    (b.x, b.y)
  else if jointIndex = c.segments.length then
    let lastSegment := c.segments.getLastD default
    (lastSegment.endX, lastSegment.endY)
  else
    let seg := c.segments.getD (jointIndex - 1) default
    (seg.endX, seg.endY)

/-- Write the sprite bound at `jointIndex` (if any) to its joint coordinate;
a missing or null entry is a no-op. -/
noncomputable def updateJointSprite (c : IKChain) (jointIndex : ℕ) : IKChain :=
  match c.jointSprites.getD jointIndex none with
  | none => c
  | some s =>
    let p := jointPos c jointIndex
    { c with jointSprites :=
        c.jointSprites.set jointIndex (some ({ s with x := p.1, y := p.2 })) }

/-- Loop of `updatePositions` lines 217–219: update every joint sprite slot in
index order. -/
noncomputable def syncJointSprites (c : IKChain) : IKChain :=
  (List.range c.jointSprites.length).foldl updateJointSprite c

/-- Interpolated coordinate computed by `updateMidSegmentSprite`
(lines 108–120) for one attachment entry. -/
noncomputable def midPoint (c : IKChain) (info : MidInfo) : ℝ × ℝ :=
  let seg := c.segments.getD info.segmentIndex default
  (seg.startX + (seg.endX - seg.startX) * info.position,
   seg.startY + (seg.endY - seg.startY) * info.position)

/-- Write the sprite of mid-segment entry `i` (if present) to its interpolated
coordinate. -/
noncomputable def updateMidSegmentSprite (c : IKChain) (i : ℕ) : IKChain :=
  match c.midSegmentSprites.get? i with
  | none => c
  | some info =>
    let p := midPoint c info
    let moved : MidInfo := { info with sprite := { info.sprite with x := p.1, y := p.2 } }
    { c with midSegmentSprites := c.midSegmentSprites.set i moved }

/-- Loop of `updatePositions` lines 221–223: update every mid-segment entry in
order. -/
noncomputable def syncMidSegmentSprites (c : IKChain) : IKChain :=
  (List.range c.midSegmentSprites.length).foldl updateMidSegmentSprite c

/-- The solver entry point `IKChain.updatePositions` (lines 123–224).  Guards
on a missing head or base sprite or an empty segment list; reads base and
target once; takes the fully-extended branch when the target is out of reach
and otherwise runs ten FABRIK iterations; then snaps the head sprite onto the
end effector and syncs the joint and mid-segment attachment sprites. -/
noncomputable def updatePositions (c : IKChain) : IKChain :=
  match c.headSprite, c.baseSprite with
  | some head, some base =>
    if c.segments.length = 0 then c
    else
      let targetX := head.x
      let targetY := head.y
      let baseX := base.x
      let baseY := base.y
      let distanceToTarget := norm2 (targetX - baseX) (targetY - baseY)
      let segs :=
        if distanceToTarget > c.totalLength then
          extendChain (atan2 (targetY - baseY) (targetX - baseX)) baseX baseY c.segments
        else
          (fabrikIteration baseX baseY targetX targetY)^[10] c.segments
      let lastSegment := segs.getLastD default
      let movedHead : Sprite := { head with x := lastSegment.endX, y := lastSegment.endY }
      let c1 : IKChain := { c with segments := segs, headSprite := some movedHead }
      syncMidSegmentSprites (syncJointSprites c1)
  | _, _ => c

/-- The private `initializePositions` method (lines 33–54): lay the fresh
segments out in a straight line from the base at angle `-π/2`; a missing base
sprite or empty segment list leaves the zero-initialised segments alone. -/
noncomputable def initPositions (c : IKChain) : IKChain :=
  match c.baseSprite with
  | none => c
  | some base =>
    if c.segments.length = 0 then c
    else { c with segments := extendChain (-(Real.pi / 2)) base.x base.y c.segments }

/-- The `IKChain` constructor (lines 18–31): build `segmentCount` segments of
the given length (`segmentCount.toNat` runs of the `for` loop, so a
non-positive count builds none), accumulate `totalLength`, then lay out the
initial pose.  No input validation is performed and no error is reported. -/
noncomputable def IKChain.make (segmentCount : ℤ) (segmentLength color thickness : ℝ)
    (headSprite baseSprite : Option Sprite) : IKChain :=
  initPositions
    { segments := List.replicate segmentCount.toNat
        { startX := 0, startY := 0, endX := 0, endY := 0, angle := 0, length := segmentLength }
      headSprite := headSprite
      baseSprite := baseSprite
      totalLength := segmentCount.toNat * segmentLength
      thickness := thickness
      color := color
      jointSprites := []
      midSegmentSprites := [] }

/-- The factory block `createIKChain` (lines 378–382): construct a chain and
return it (the push onto the global registry is bookkeeping outside the modelled
state).  It returns a chain object for every input. -/
noncomputable def createIKChain (segments : ℤ) (length color thickness : ℝ)
    (head base : Option Sprite) : IKChain :=
  IKChain.make segments length color thickness head base

/-- The public `addJointSprite` method (lines 56–67): reject an index outside
`[0, segments.length]` as a silent no-op; otherwise pad the joint list with
nulls up to the index, store the sprite, and immediately write its position
from the current geometry. -/
noncomputable def addJointSprite (c : IKChain) (sprite : Sprite) (jointIndex : ℤ) : IKChain :=
  if jointIndex < 0 ∨ jointIndex > (c.segments.length : ℤ) then c
  else
    let j := jointIndex.toNat
    let js := c.jointSprites ++ List.replicate (j + 1 - c.jointSprites.length) none
    updateJointSprite { c with jointSprites := js.set j (some sprite) } j

/-- The public `addMidSegmentSprite` method (lines 69–83): reject a segment
index outside `[0, segments.length)` as a silent no-op; otherwise clamp the
position to `[0, 1]`, append the entry, and immediately write the sprite's
position from the current geometry. -/
noncomputable def addMidSegmentSprite (c : IKChain) (sprite : Sprite) (segmentIndex : ℤ)
    (position : ℝ) : IKChain :=
  if segmentIndex < 0 ∨ segmentIndex ≥ (c.segments.length : ℤ) then c
  else
    let pos := max 0 (min 1 position)
    let ms := c.midSegmentSprites ++ [⟨sprite, segmentIndex.toNat, pos⟩]
    updateMidSegmentSprite { c with midSegmentSprites := ms } (ms.length - 1)

/-- Euclidean distance between the two stored endpoints of a segment. -/
noncomputable def segDist (s : Segment) : ℝ := norm2 (s.endX - s.startX) (s.endY - s.startY)

/-- Geometric consistency of one segment: the endpoint distance equals the
fixed length, or the endpoints coincide (the zero-length degeneracy the solver
deliberately leaves in place). -/
def segOK (s : Segment) : Prop :=
  segDist s = s.length ∨ (s.endX = s.startX ∧ s.endY = s.startY)

/-- The stored angle agrees with the angle derived from the endpoints. -/
def angOK (s : Segment) : Prop :=
  s.angle = atan2 (s.endY - s.startY) (s.endX - s.startX)

/-- Chain continuity: every segment starts where its predecessor ends. -/
def linked (l : List Segment) : Prop :=
  l.Chain' fun a b => b.startX = a.endX ∧ b.startY = a.endY

/-- Sum of the fixed lengths of a list of segments. -/
noncomputable def sumLen (l : List Segment) : ℝ := (l.map Segment.length).sum

/-- A chain is well formed when its cached `totalLength` is the sum of its
segment lengths and every segment length is positive — the state every chain
built by the constructor with valid block parameters has. -/
def wellFormed (c : IKChain) : Prop :=
  c.totalLength = sumLen c.segments ∧ ∀ s ∈ c.segments, 0 < s.length

theorem norm2_nonneg (dx dy : ℝ) : 0 ≤ norm2 dx dy := Real.sqrt_nonneg _

theorem norm2_eq_abs (dx dy : ℝ) : norm2 dx dy = Complex.abs ⟨dx, dy⟩ := by
  rw [Complex.abs_apply, Complex.normSq_mk, norm2]

theorem norm2_eq_zero {dx dy : ℝ} (h : norm2 dx dy = 0) : dx = 0 ∧ dy = 0 := by
  have h2 : dx * dx + dy * dy ≤ 0 := Real.sqrt_eq_zero'.mp h
  have hx : dx * dx = 0 :=
    le_antisymm (by nlinarith [mul_self_nonneg dy]) (mul_self_nonneg dx)
  have hy : dy * dy = 0 :=
    le_antisymm (by nlinarith [mul_self_nonneg dx]) (mul_self_nonneg dy)
  exact ⟨mul_self_eq_zero.mp hx, mul_self_eq_zero.mp hy⟩

theorem norm2_scale (dx dy r : ℝ) : norm2 (dx * r) (dy * r) = |r| * norm2 dx dy := by
  rw [norm2, norm2, show dx * r * (dx * r) + dy * r * (dy * r)
      = (r * r) * (dx * dx + dy * dy) by ring,
    Real.sqrt_mul (mul_self_nonneg r), Real.sqrt_mul_self_eq_abs]

theorem norm2_cos_sin (a : ℝ) : norm2 (Real.cos a) (Real.sin a) = 1 := by
  rw [norm2, show Real.cos a * Real.cos a + Real.sin a * Real.sin a
      = Real.sin a ^ 2 + Real.cos a ^ 2 by ring,
    Real.sin_sq_add_cos_sq, Real.sqrt_one]

theorem atan2_mem_Ioc (y x : ℝ) : atan2 y x ∈ Set.Ioc (-Real.pi) Real.pi :=
  Complex.arg_mem_Ioc _

theorem cos_atan2 {y x : ℝ} (h : ¬(x = 0 ∧ y = 0)) :
    Real.cos (atan2 y x) = x / norm2 x y := by
  rw [atan2, norm2_eq_abs]
  refine Complex.cos_arg ?_
  intro hz
  exact h ⟨congrArg Complex.re hz, congrArg Complex.im hz⟩

theorem sin_atan2 (y x : ℝ) : Real.sin (atan2 y x) = y / norm2 x y := by
  rw [atan2, norm2_eq_abs]
  exact Complex.sin_arg _

theorem atan2_cos_sin_scale {r a : ℝ} (hr : 0 < r) (ha : a ∈ Set.Ioc (-Real.pi) Real.pi) :
    atan2 (Real.sin a * r) (Real.cos a * r) = a := by
  rw [atan2]
  have hmk : (⟨Real.cos a * r, Real.sin a * r⟩ : ℂ)
      = (r : ℝ) * (Complex.cos a + Complex.sin a * Complex.I) := by
    rw [Complex.mk_eq_add_mul_I, ← Complex.ofReal_cos, ← Complex.ofReal_sin]
    push_cast
    ring
  rw [hmk]
  exact Complex.arg_mul_cos_add_sin_mul_I hr ha

/-- Triangle inequality for `norm2` over differences of coordinates. -/
theorem norm2_triangle (x1 y1 x2 y2 x3 y3 : ℝ) :
    norm2 (x3 - x1) (y3 - y1) ≤ norm2 (x2 - x1) (y2 - y1) + norm2 (x3 - x2) (y3 - y2) := by
  have h12 : (⟨x2 - x1, y2 - y1⟩ : ℂ) = (⟨x2, y2⟩ : ℂ) - ⟨x1, y1⟩ := by
    apply Complex.ext <;> simp
  have h23 : (⟨x3 - x2, y3 - y2⟩ : ℂ) = (⟨x3, y3⟩ : ℂ) - ⟨x2, y2⟩ := by
    apply Complex.ext <;> simp
  have h13 : (⟨x3 - x1, y3 - y1⟩ : ℂ) = (⟨x3, y3⟩ : ℂ) - ⟨x1, y1⟩ := by
    apply Complex.ext <;> simp
  rw [norm2_eq_abs, norm2_eq_abs, norm2_eq_abs, h12, h23, h13,
    show (⟨x3, y3⟩ : ℂ) - ⟨x1, y1⟩
      = ((⟨x3, y3⟩ : ℂ) - ⟨x2, y2⟩) + ((⟨x2, y2⟩ : ℂ) - ⟨x1, y1⟩) by ring]
  calc Complex.abs (((⟨x3, y3⟩ : ℂ) - ⟨x2, y2⟩) + ((⟨x2, y2⟩ : ℂ) - ⟨x1, y1⟩))
      ≤ Complex.abs ((⟨x3, y3⟩ : ℂ) - ⟨x2, y2⟩) + Complex.abs ((⟨x2, y2⟩ : ℂ) - ⟨x1, y1⟩) :=
        Complex.abs.add_le _ _
    _ = Complex.abs ((⟨x2, y2⟩ : ℂ) - ⟨x1, y1⟩) + Complex.abs ((⟨x3, y3⟩ : ℂ) - ⟨x2, y2⟩) := by
        ring

/-- First-segment anchor: the head of the list (if any) starts at `(px, py)`. -/
def startsAt (px py : ℝ) : List Segment → Prop
  | [] => True
  | s :: _ => s.startX = px ∧ s.startY = py

theorem getLastD_irrel {α : Type} (l : List α) (d1 d2 : α) (h : l ≠ []) :
    l.getLastD d1 = l.getLastD d2 := by
  cases l with
  | nil => exact absurd rfl h
  | cons a t =>
    conv_lhs => rw [List.getLastD_cons]
    conv_rhs => rw [List.getLastD_cons]

theorem extendChain_length (a : ℝ) :
    ∀ (l : List Segment) (px py : ℝ), (extendChain a px py l).length = l.length := by
  intro l
  induction l with
  | nil => intro px py; rfl
  | cons s rest ih => intro px py; simp [extendChain, ih]

theorem extendChain_map_length (a : ℝ) :
    ∀ (l : List Segment) (px py : ℝ),
      (extendChain a px py l).map Segment.length = l.map Segment.length := by
  intro l
  induction l with
  | nil => intro px py; rfl
  | cons s rest ih => intro px py; simp [extendChain, ih]

theorem extendChain_startsAt (a : ℝ) (l : List Segment) (px py : ℝ) :
    startsAt px py (extendChain a px py l) := by
  cases l with
  | nil => trivial
  | cons s rest => exact ⟨rfl, rfl⟩

theorem extendChain_linked (a : ℝ) :
    ∀ (l : List Segment) (px py : ℝ), linked (extendChain a px py l) := by
  intro l
  induction l with
  | nil => intro px py; exact List.chain'_nil
  | cons s rest ih =>
    intro px py
    rw [linked, extendChain, List.chain'_cons']
    refine ⟨?_, ih _ _⟩
    intro b hb
    cases rest with
    | nil => simp [extendChain] at hb
    | cons t u =>
      simp only [extendChain, List.head?_cons, Option.mem_def, Option.some.injEq] at hb
      subst hb
      exact ⟨rfl, rfl⟩

theorem extendChain_segOK (a : ℝ) :
    ∀ (l : List Segment) (px py : ℝ), (∀ t ∈ l, 0 ≤ t.length) →
      ∀ s ∈ extendChain a px py l, segDist s = s.length := by
  intro l
  induction l with
  | nil => intro px py _ s hs; simp [extendChain] at hs
  | cons t rest ih =>
    intro px py hlen s hs
    rw [extendChain] at hs
    rcases List.mem_cons.mp hs with h | h
    · subst h
      have ht : (0 : ℝ) ≤ t.length := hlen t (List.mem_cons_self t rest)
      simp only [segDist]
      rw [show px + Real.cos a * t.length - px = Real.cos a * t.length by ring,
        show py + Real.sin a * t.length - py = Real.sin a * t.length by ring,
        norm2_scale, norm2_cos_sin, mul_one, abs_of_nonneg ht]
    · exact ih _ _ (fun u hu => hlen u (List.mem_cons_of_mem _ hu)) s h

theorem extendChain_angOK {a : ℝ} (ha : a ∈ Set.Ioc (-Real.pi) Real.pi) :
    ∀ (l : List Segment) (px py : ℝ), (∀ t ∈ l, 0 < t.length) →
      ∀ s ∈ extendChain a px py l, angOK s := by
  intro l
  induction l with
  | nil => intro px py _ s hs; simp [extendChain] at hs
  | cons t rest ih =>
    intro px py hlen s hs
    rw [extendChain] at hs
    rcases List.mem_cons.mp hs with h | h
    · subst h
      have ht : (0 : ℝ) < t.length := hlen t (List.mem_cons_self t rest)
      simp only [angOK]
      rw [show py + Real.sin a * t.length - py = Real.sin a * t.length by ring,
        show px + Real.cos a * t.length - px = Real.cos a * t.length by ring]
      exact (atan2_cos_sin_scale ht ha).symm
    · exact ih _ _ (fun u hu => hlen u (List.mem_cons_of_mem _ hu)) s h

theorem extendChain_lastEnd (a : ℝ) :
    ∀ (l : List Segment) (px py : ℝ), l ≠ [] →
      ((extendChain a px py l).getLastD default).endX = px + Real.cos a * sumLen l ∧
      ((extendChain a px py l).getLastD default).endY = py + Real.sin a * sumLen l := by
  intro l
  induction l with
  | nil => intro px py h; exact absurd rfl h
  | cons s rest ih =>
    intro px py _
    cases hr : rest with
    | nil =>
      subst hr
      constructor
      · show px + Real.cos a * s.length = px + Real.cos a * sumLen [s]
        simp [sumLen]
      · show py + Real.sin a * s.length = py + Real.sin a * sumLen [s]
        simp [sumLen]
    | cons t u =>
      subst hr
      rw [extendChain, List.getLastD_cons]
      have hne : extendChain a (px + Real.cos a * s.length) (py + Real.sin a * s.length)
          (t :: u) ≠ [] := by
        intro h
        have := extendChain_length a (t :: u) (px + Real.cos a * s.length)
          (py + Real.sin a * s.length)
        rw [h] at this
        simp at this
      obtain ⟨hx, hy⟩ := ih (px + Real.cos a * s.length) (py + Real.sin a * s.length) (by simp)
      rw [getLastD_irrel _ _ default hne]
      constructor
      · rw [hx, sumLen, sumLen]; simp; ring
      · rw [hy, sumLen, sumLen]; simp; ring

theorem sumLen_take_succ :
    ∀ (l : List Segment) (i : ℕ), i < l.length →
      sumLen (l.take (i + 1)) = sumLen (l.take i) + (l.getD i default).length := by
  intro l
  induction l with
  | nil => intro i hi; simp at hi
  | cons s rest ih =>
    intro i hi
    cases i with
    | zero => simp [sumLen]
    | succ j =>
      have hj : j < rest.length := by simpa using hi
      simp only [List.take_succ_cons, sumLen, List.map_cons, List.sum_cons, List.getD_cons_succ]
      have := ih j hj
      rw [sumLen, sumLen] at this
      rw [this]
      ring

theorem extendChain_getD (a : ℝ) :
    ∀ (l : List Segment) (px py : ℝ) (i : ℕ), i < l.length →
      ((extendChain a px py l).getD i default).startX = px + Real.cos a * sumLen (l.take i) ∧
      ((extendChain a px py l).getD i default).startY = py + Real.sin a * sumLen (l.take i) ∧
      ((extendChain a px py l).getD i default).endX
        = px + Real.cos a * sumLen (l.take (i + 1)) ∧
      ((extendChain a px py l).getD i default).endY
        = py + Real.sin a * sumLen (l.take (i + 1)) ∧
      ((extendChain a px py l).getD i default).length = (l.getD i default).length := by
  intro l
  induction l with
  | nil => intro px py i hi; simp at hi
  | cons s rest ih =>
    intro px py i hi
    cases i with
    | zero =>
      refine ⟨?_, ?_, ?_, ?_, ?_⟩ <;> simp [extendChain, sumLen]
    | succ j =>
      have hj : j < rest.length := by simpa using hi
      obtain ⟨h1, h2, h3, h4, h5⟩ :=
        ih (px + Real.cos a * s.length) (py + Real.sin a * s.length) j hj
      rw [extendChain]
      refine ⟨?_, ?_, ?_, ?_, ?_⟩
      · rw [List.getD_cons_succ, h1, List.take_succ_cons, sumLen, sumLen]; simp; ring
      · rw [List.getD_cons_succ, h2, List.take_succ_cons, sumLen, sumLen]; simp; ring
      · rw [List.getD_cons_succ, h3, List.take_succ_cons, sumLen, sumLen]; simp; ring
      · rw [List.getD_cons_succ, h4, List.take_succ_cons, sumLen, sumLen]; simp; ring
      · rw [List.getD_cons_succ, h5, List.getD_cons_succ]

/-- Last-segment anchor: the last segment of the list (if any) ends at
`(px, py)`. -/
def lastEndAt (px py : ℝ) (l : List Segment) : Prop :=
  l ≠ [] → (l.getLastD default).endX = px ∧ (l.getLastD default).endY = py

theorem forwardSegStep_startX (px py : ℝ) (seg : Segment)
    (h : norm2 (px - seg.startX) (py - seg.startY) > 0) :
    (forwardSegStep px py seg).startX
      = px - (px - seg.startX) * (seg.length / norm2 (px - seg.startX) (py - seg.startY)) := by
  simp only [forwardSegStep]
  rw [if_pos h]

theorem forwardSegStep_length (px py : ℝ) (seg : Segment) :
    (forwardSegStep px py seg).length = seg.length := by
  simp only [forwardSegStep]
  split <;> rfl

theorem forwardSegStep_endX (px py : ℝ) (seg : Segment) :
    (forwardSegStep px py seg).endX = px := by
  simp only [forwardSegStep]
  split <;> rfl

theorem forwardSegStep_endY (px py : ℝ) (seg : Segment) :
    (forwardSegStep px py seg).endY = py := by
  simp only [forwardSegStep]
  split <;> rfl

theorem backwardSegStep_startX (px py : ℝ) (seg : Segment) :
    (backwardSegStep px py seg).startX = px := by
  simp only [backwardSegStep]
  split <;> rfl

theorem backwardSegStep_startY (px py : ℝ) (seg : Segment) :
    (backwardSegStep px py seg).startY = py := by
  simp only [backwardSegStep]
  split <;> rfl

theorem backwardSegStep_length (px py : ℝ) (seg : Segment) :
    (backwardSegStep px py seg).length = seg.length := by
  simp only [backwardSegStep]
  split <;> rfl

theorem backwardSegStep_angOK (px py : ℝ) (seg : Segment) :
    angOK (backwardSegStep px py seg) := by
  simp only [backwardSegStep, angOK]

theorem backwardSegStep_segOK (px py : ℝ) (seg : Segment) (h : 0 ≤ seg.length) :
    segOK (backwardSegStep px py seg) := by
  by_cases hcl : norm2 (seg.endX - px) (seg.endY - py) > 0
  · left
    simp only [backwardSegStep, segDist]
    rw [if_pos hcl]
    simp only []
    rw [show px + (seg.endX - px) * (seg.length / norm2 (seg.endX - px) (seg.endY - py)) - px
        = (seg.endX - px) * (seg.length / norm2 (seg.endX - px) (seg.endY - py)) by ring,
      show py + (seg.endY - py) * (seg.length / norm2 (seg.endX - px) (seg.endY - py)) - py
        = (seg.endY - py) * (seg.length / norm2 (seg.endX - px) (seg.endY - py)) by ring,
      norm2_scale, abs_of_nonneg (div_nonneg h (le_of_lt hcl)),
      div_mul_cancel₀ seg.length (ne_of_gt hcl)]
  · right
    have h0 : norm2 (seg.endX - px) (seg.endY - py) = 0 :=
      le_antisymm (not_lt.mp hcl) (norm2_nonneg _ _)
    obtain ⟨hx, hy⟩ := norm2_eq_zero h0
    simp only [backwardSegStep]
    rw [if_neg hcl]
    constructor
    · show seg.endX = px
      linarith
    · show seg.endY = py
      linarith

theorem forwardSegStep_segOK (px py : ℝ) (seg : Segment) (h : 0 ≤ seg.length) :
    segOK (forwardSegStep px py seg) := by
  by_cases hcl : norm2 (px - seg.startX) (py - seg.startY) > 0
  · left
    simp only [forwardSegStep, segDist]
    rw [if_pos hcl]
    simp only []
    rw [show px - (px - (px - seg.startX) * (seg.length / norm2 (px - seg.startX)
          (py - seg.startY)))
        = (px - seg.startX) * (seg.length / norm2 (px - seg.startX) (py - seg.startY)) by ring,
      show py - (py - (py - seg.startY) * (seg.length / norm2 (px - seg.startX)
          (py - seg.startY)))
        = (py - seg.startY) * (seg.length / norm2 (px - seg.startX) (py - seg.startY)) by ring,
      norm2_scale, abs_of_nonneg (div_nonneg h (le_of_lt hcl)),
      div_mul_cancel₀ seg.length (ne_of_gt hcl)]
  · right
    have h0 : norm2 (px - seg.startX) (py - seg.startY) = 0 :=
      le_antisymm (not_lt.mp hcl) (norm2_nonneg _ _)
    obtain ⟨hx, hy⟩ := norm2_eq_zero h0
    simp only [forwardSegStep]
    rw [if_neg hcl]
    constructor
    · show px = seg.startX
      linarith
    · show py = seg.startY
      linarith

theorem forwardSegStep_fixed (px py : ℝ) (seg : Segment) (hx : seg.endX = px)
    (hy : seg.endY = py) (hok : segOK seg) : forwardSegStep px py seg = seg := by
  subst hx
  subst hy
  have hsame : ({ seg with endX := seg.endX, endY := seg.endY } : Segment) = seg := rfl
  rcases hok with hlen | ⟨hex, hey⟩
  · by_cases hcl : norm2 (seg.endX - seg.startX) (seg.endY - seg.startY) > 0
    · simp only [forwardSegStep]
      rw [if_pos hcl]
      have hratio : seg.length / norm2 (seg.endX - seg.startX) (seg.endY - seg.startY) = 1 := by
        rw [← hlen, segDist]
        exact div_self (ne_of_gt (by rw [segDist] at hlen; rw [hlen] at hcl; rwa [hlen]))
      ext <;> simp only [] <;> rw [hratio] <;> ring
    · simp only [forwardSegStep]
      rw [if_neg hcl]
  · have hcl : ¬ norm2 (seg.endX - seg.startX) (seg.endY - seg.startY) > 0 := by
      rw [hex, hey]
      simp [norm2]
    simp only [forwardSegStep]
    rw [if_neg hcl]

theorem backwardSegStep_fixed (px py : ℝ) (seg : Segment) (hx : seg.startX = px)
    (hy : seg.startY = py) (hok : segOK seg) (hang : angOK seg) :
    backwardSegStep px py seg = seg := by
  subst hx
  subst hy
  rcases hok with hlen | ⟨hex, hey⟩
  · by_cases hcl : norm2 (seg.endX - seg.startX) (seg.endY - seg.startY) > 0
    · simp only [backwardSegStep]
      rw [if_pos hcl]
      have hratio : seg.length / norm2 (seg.endX - seg.startX) (seg.endY - seg.startY) = 1 := by
        rw [← hlen, segDist]
        exact div_self (ne_of_gt (by rw [segDist] at hlen; rw [hlen] at hcl; rwa [hlen]))
      refine Segment.ext rfl rfl ?_ ?_ ?_ rfl
      · show seg.startX + (seg.endX - seg.startX)
          * (seg.length / norm2 (seg.endX - seg.startX) (seg.endY - seg.startY)) = seg.endX
        rw [hratio]; ring
      · show seg.startY + (seg.endY - seg.startY)
          * (seg.length / norm2 (seg.endX - seg.startX) (seg.endY - seg.startY)) = seg.endY
        rw [hratio]; ring
      · show atan2
            (seg.startY + (seg.endY - seg.startY)
              * (seg.length / norm2 (seg.endX - seg.startX) (seg.endY - seg.startY)) - seg.startY)
            (seg.startX + (seg.endX - seg.startX)
              * (seg.length / norm2 (seg.endX - seg.startX) (seg.endY - seg.startY)) - seg.startX)
          = seg.angle
        rw [hratio, show seg.startY + (seg.endY - seg.startY) * 1 - seg.startY
            = seg.endY - seg.startY by ring,
          show seg.startX + (seg.endX - seg.startX) * 1 - seg.startX
            = seg.endX - seg.startX by ring]
        rw [angOK] at hang
        exact hang.symm
    · simp only [backwardSegStep]
      rw [if_neg hcl]
      refine Segment.ext rfl rfl rfl rfl ?_ rfl
      show atan2 (seg.endY - seg.startY) (seg.endX - seg.startX) = seg.angle
      rw [angOK] at hang
      exact hang.symm
  · have hcl : ¬ norm2 (seg.endX - seg.startX) (seg.endY - seg.startY) > 0 := by
      rw [hex, hey]
      simp [norm2]
    simp only [backwardSegStep]
    rw [if_neg hcl]
    refine Segment.ext rfl rfl rfl rfl ?_ rfl
    show atan2 (seg.endY - seg.startY) (seg.endX - seg.startX) = seg.angle
    rw [angOK] at hang
    exact hang.symm

/-- First-segment end anchor, used for the reversed list in the forward pass. -/
def headEndAt (px py : ℝ) : List Segment → Prop
  | [] => True
  | s :: _ => s.endX = px ∧ s.endY = py

theorem forwardPassRev_map_length :
    ∀ (l : List Segment) (px py : ℝ),
      (forwardPassRev px py l).map Segment.length = l.map Segment.length := by
  intro l
  induction l with
  | nil => intro px py; rfl
  | cons s rest ih =>
    intro px py
    simp [forwardPassRev, ih, forwardSegStep_length]

theorem forwardPass_map_length (tx ty : ℝ) (l : List Segment) :
    (forwardPass tx ty l).map Segment.length = l.map Segment.length := by
  rw [forwardPass, List.map_reverse, forwardPassRev_map_length, List.map_reverse,
    List.reverse_reverse]

theorem backwardPass_map_length :
    ∀ (l : List Segment) (px py : ℝ),
      (backwardPass px py l).map Segment.length = l.map Segment.length := by
  intro l
  induction l with
  | nil => intro px py; rfl
  | cons s rest ih =>
    intro px py
    simp [backwardPass, ih, backwardSegStep_length]

theorem map_length_transfer (P : ℝ → Prop) (l1 l2 : List Segment)
    (h : l1.map Segment.length = l2.map Segment.length)
    (hP : ∀ s ∈ l2, P s.length) : ∀ s ∈ l1, P s.length := by
  intro s hs
  have hmem : s.length ∈ l2.map Segment.length := by
    rw [← h]
    exact List.mem_map_of_mem _ hs
  obtain ⟨t, ht, hts⟩ := List.mem_map.mp hmem
  rw [← hts]
  exact hP t ht

theorem backwardPass_startsAt (l : List Segment) (px py : ℝ) :
    startsAt px py (backwardPass px py l) := by
  cases l with
  | nil => trivial
  | cons s rest => exact ⟨backwardSegStep_startX px py s, backwardSegStep_startY px py s⟩

theorem backwardPass_linked :
    ∀ (l : List Segment) (px py : ℝ), linked (backwardPass px py l) := by
  intro l
  induction l with
  | nil => intro px py; exact List.chain'_nil
  | cons s rest ih =>
    intro px py
    rw [linked, backwardPass, List.chain'_cons']
    refine ⟨?_, ih _ _⟩
    intro b hb
    cases rest with
    | nil => simp [backwardPass] at hb
    | cons t u =>
      simp only [backwardPass, List.head?_cons, Option.mem_def, Option.some.injEq] at hb
      subst hb
      exact ⟨backwardSegStep_startX _ _ _, backwardSegStep_startY _ _ _⟩

theorem backwardPass_segOK :
    ∀ (l : List Segment) (px py : ℝ), (∀ s ∈ l, 0 ≤ s.length) →
      ∀ s ∈ backwardPass px py l, segOK s := by
  intro l
  induction l with
  | nil => intro px py _ s hs; simp [backwardPass] at hs
  | cons t rest ih =>
    intro px py hlen s hs
    rw [backwardPass] at hs
    rcases List.mem_cons.mp hs with h | h
    · subst h
      exact backwardSegStep_segOK px py t (hlen t (List.mem_cons_self t rest))
    · exact ih _ _ (fun u hu => hlen u (List.mem_cons_of_mem _ hu)) s h

theorem backwardPass_angOK :
    ∀ (l : List Segment) (px py : ℝ), ∀ s ∈ backwardPass px py l, angOK s := by
  intro l
  induction l with
  | nil => intro px py s hs; simp [backwardPass] at hs
  | cons t rest ih =>
    intro px py s hs
    rw [backwardPass] at hs
    rcases List.mem_cons.mp hs with h | h
    · subst h
      exact backwardSegStep_angOK px py t
    · exact ih _ _ s h

theorem backwardPass_fixed :
    ∀ (l : List Segment) (px py : ℝ), linked l → startsAt px py l →
      (∀ s ∈ l, segOK s) → (∀ s ∈ l, angOK s) → backwardPass px py l = l := by
  intro l
  induction l with
  | nil => intro px py _ _ _ _; rfl
  | cons s rest ih =>
    intro px py hl hstart hok hang
    have hs : backwardSegStep px py s = s :=
      backwardSegStep_fixed px py s hstart.1 hstart.2
        (hok s (List.mem_cons_self s rest)) (hang s (List.mem_cons_self s rest))
    rw [backwardPass, hs]
    have htail : backwardPass s.endX s.endY rest = rest := by
      cases rest with
      | nil => rfl
      | cons t u =>
        have hrel := (List.chain'_cons.mp hl).1
        exact ih s.endX s.endY (List.chain'_cons.mp hl).2 ⟨hrel.1, hrel.2⟩
          (fun v hv => hok v (List.mem_cons_of_mem _ hv))
          (fun v hv => hang v (List.mem_cons_of_mem _ hv))
    rw [htail]

theorem forwardPassRev_fixed :
    ∀ (l : List Segment) (px py : ℝ),
      (l.Chain' fun a b => b.endX = a.startX ∧ b.endY = a.startY) →
      headEndAt px py l → (∀ s ∈ l, segOK s) → forwardPassRev px py l = l := by
  intro l
  induction l with
  | nil => intro px py _ _ _; rfl
  | cons s rest ih =>
    intro px py hl hhead hok
    have hs : forwardSegStep px py s = s :=
      forwardSegStep_fixed px py s hhead.1 hhead.2 (hok s (List.mem_cons_self s rest))
    rw [forwardPassRev, hs]
    have htail : forwardPassRev s.startX s.startY rest = rest := by
      cases rest with
      | nil => rfl
      | cons t u =>
        have hrel := (List.chain'_cons.mp hl).1
        exact ih s.startX s.startY (List.chain'_cons.mp hl).2 ⟨hrel.1, hrel.2⟩
          (fun v hv => hok v (List.mem_cons_of_mem _ hv))
    rw [htail]

theorem forwardPass_fixed (tx ty : ℝ) (l : List Segment) (hl : linked l)
    (hok : ∀ s ∈ l, segOK s) (hlast : lastEndAt tx ty l) : forwardPass tx ty l = l := by
  rw [forwardPass]
  have hrev : l.reverse.Chain' fun a b => b.endX = a.startX ∧ b.endY = a.startY := by
    rw [List.chain'_reverse]
    exact hl.imp fun a b hab => ⟨hab.1.symm, hab.2.symm⟩
  have hhead : headEndAt tx ty l.reverse := by
    cases hrevl : l.reverse with
    | nil => trivial
    | cons s t =>
      have hne : l ≠ [] := by
        intro h
        rw [h] at hrevl
        simp at hrevl
      have hlsome : l.getLast? = some s := by
        rw [← List.head?_reverse, hrevl, List.head?_cons]
      have hld : l.getLastD default = s := by
        rw [List.getLastD_eq_getLast?, hlsome, Option.getD_some]
      obtain ⟨hx, hy⟩ := hlast hne
      rw [hld] at hx hy
      exact ⟨hx, hy⟩
  rw [forwardPassRev_fixed l.reverse tx ty hrev hhead
    (fun s hs => hok s (List.mem_reverse.mp hs)), List.reverse_reverse]

theorem fabrikIteration_map_length (bx bY tx ty : ℝ) (l : List Segment) :
    (fabrikIteration bx bY tx ty l).map Segment.length = l.map Segment.length := by
  rw [fabrikIteration, backwardPass_map_length, forwardPass_map_length]

theorem fabrikIterate_map_length (bx bY tx ty : ℝ) (l : List Segment) :
    ∀ n : ℕ, ((fabrikIteration bx bY tx ty)^[n] l).map Segment.length
      = l.map Segment.length := by
  intro n
  induction n with
  | zero => rfl
  | succ m ih =>
    rw [Function.iterate_succ_apply', fabrikIteration_map_length, ih]

theorem chain_dist_bound :
    ∀ (l : List Segment) (px py : ℝ), l ≠ [] → linked l → startsAt px py l →
      (∀ s ∈ l, segOK s) → (∀ s ∈ l, 0 ≤ s.length) →
      norm2 ((l.getLastD default).endX - px) ((l.getLastD default).endY - py) ≤ sumLen l := by
  intro l
  induction l with
  | nil => intro px py h; exact absurd rfl h
  | cons s rest ih =>
    intro px py _ hl hstart hok hlen
    have hfirst : norm2 (s.endX - px) (s.endY - py) ≤ s.length := by
      rcases hok s (List.mem_cons_self s rest) with hd | ⟨he1, he2⟩
      · rw [← hstart.1, ← hstart.2]
        rw [segDist] at hd
        exact le_of_eq hd
      · rw [he1, he2, ← hstart.1, ← hstart.2]
        have hz : norm2 (s.startX - s.startX) (s.startY - s.startY) = 0 := by
          simp [norm2]
        rw [hz]
        exact hlen s (List.mem_cons_self s rest)
    cases hr : rest with
    | nil =>
      subst hr
      have hgl : ([s] : List Segment).getLastD default = s := rfl
      rw [hgl]
      calc norm2 (s.endX - px) (s.endY - py) ≤ s.length := hfirst
        _ ≤ sumLen [s] := by simp [sumLen]
    | cons t u =>
      subst hr
      have hgl : ((s :: t :: u) : List Segment).getLastD default
          = ((t :: u) : List Segment).getLastD default := by
        rw [List.getLastD_cons]
        exact getLastD_irrel _ _ _ (by simp)
      have hrel := (List.chain'_cons.mp hl).1
      have hrest := ih s.endX s.endY (by simp) (List.chain'_cons.mp hl).2 ⟨hrel.1, hrel.2⟩
        (fun v hv => hok v (List.mem_cons_of_mem _ hv))
        (fun v hv => hlen v (List.mem_cons_of_mem _ hv))
      have htri := norm2_triangle px py s.endX s.endY
        (((t :: u) : List Segment).getLastD default).endX
        (((t :: u) : List Segment).getLastD default).endY
      rw [hgl]
      have hsum : sumLen (s :: t :: u) = s.length + sumLen (t :: u) := by
        simp [sumLen]
      rw [hsum]
      linarith

theorem jointPos_congr {c1 c2 : IKChain} (hseg : c1.segments = c2.segments)
    (hbase : c1.baseSprite = c2.baseSprite) : jointPos c1 = jointPos c2 := by
  funext j
  rw [jointPos, jointPos, hseg, hbase]

theorem midPoint_congr {c1 c2 : IKChain} (hseg : c1.segments = c2.segments) :
    midPoint c1 = midPoint c2 := by
  funext info
  rw [midPoint, midPoint, hseg]

theorem updateJointSprite_frame (c : IKChain) (i : ℕ) :
    (updateJointSprite c i).segments = c.segments ∧
    (updateJointSprite c i).headSprite = c.headSprite ∧
    (updateJointSprite c i).baseSprite = c.baseSprite ∧
    (updateJointSprite c i).totalLength = c.totalLength ∧
    (updateJointSprite c i).thickness = c.thickness ∧
    (updateJointSprite c i).color = c.color ∧
    (updateJointSprite c i).midSegmentSprites = c.midSegmentSprites := by
  simp only [updateJointSprite]
  split <;> exact ⟨rfl, rfl, rfl, rfl, rfl, rfl, rfl⟩

theorem updateMidSegmentSprite_frame (c : IKChain) (i : ℕ) :
    (updateMidSegmentSprite c i).segments = c.segments ∧
    (updateMidSegmentSprite c i).headSprite = c.headSprite ∧
    (updateMidSegmentSprite c i).baseSprite = c.baseSprite ∧
    (updateMidSegmentSprite c i).totalLength = c.totalLength ∧
    (updateMidSegmentSprite c i).thickness = c.thickness ∧
    (updateMidSegmentSprite c i).color = c.color ∧
    (updateMidSegmentSprite c i).jointSprites = c.jointSprites := by
  simp only [updateMidSegmentSprite]
  split <;> exact ⟨rfl, rfl, rfl, rfl, rfl, rfl, rfl⟩

theorem updateJointSprite_get? (c : IKChain) (i k : ℕ) :
    (updateJointSprite c i).jointSprites.get? k
      = if k = i then
          (c.jointSprites.get? i).map (Option.map fun s =>
            { s with x := (jointPos c i).1, y := (jointPos c i).2 })
        else c.jointSprites.get? k := by
  simp only [updateJointSprite]
  cases h : c.jointSprites.getD i none with
  | none =>
    have hgd : (c.jointSprites.get? i).getD none = none := by
      rw [← List.getD_eq_get?]
      exact h
    cases hgi : c.jointSprites.get? i with
    | none =>
      by_cases hk : k = i
      · subst hk
        rw [if_pos rfl, hgi]
        rfl
      · rw [if_neg hk]
    | some o =>
      rw [hgi] at hgd
      rw [Option.getD_some] at hgd
      subst hgd
      by_cases hk : k = i
      · subst hk
        rw [if_pos rfl, hgi]
        rfl
      · rw [if_neg hk]
  | some s =>
    have hgi : c.jointSprites.get? i = some (some s) := by
      have hgd : (c.jointSprites.get? i).getD none = some s := by
        rw [← List.getD_eq_get?]
        exact h
      cases hgi2 : c.jointSprites.get? i with
      | none => rw [hgi2] at hgd; exact absurd hgd (by simp)
      | some o =>
        rw [hgi2] at hgd
        rw [Option.getD_some] at hgd
        rw [hgd]
    by_cases hk : k = i
    · subst hk
      rw [if_pos rfl, hgi]
      simp only []
      rw [List.get?_set_eq]
      rw [hgi]
      rfl
    · rw [if_neg hk]
      simp only []
      rw [List.get?_set_ne _ _ (fun he => hk he.symm)]

theorem updateMidSegmentSprite_get? (c : IKChain) (i k : ℕ) :
    (updateMidSegmentSprite c i).midSegmentSprites.get? k
      = if k = i then
          (c.midSegmentSprites.get? i).map (fun info =>
            { info with sprite :=
              { info.sprite with x := (midPoint c info).1, y := (midPoint c info).2 } })
        else c.midSegmentSprites.get? k := by
  simp only [updateMidSegmentSprite]
  cases h : c.midSegmentSprites.get? i with
  | none =>
    by_cases hk : k = i
    · subst hk
      rw [if_pos rfl, h]
      rfl
    · rw [if_neg hk]
  | some info =>
    by_cases hk : k = i
    · subst hk
      rw [if_pos rfl]
      simp only []
      rw [List.get?_set_eq, h]
      rfl
    · rw [if_neg hk]
      simp only []
      rw [List.get?_set_ne _ _ (fun he => hk he.symm)]

theorem syncJointSprites_aux (c : IKChain) :
    ∀ m : ℕ,
      ((List.range m).foldl updateJointSprite c).segments = c.segments ∧
      ((List.range m).foldl updateJointSprite c).headSprite = c.headSprite ∧
      ((List.range m).foldl updateJointSprite c).baseSprite = c.baseSprite ∧
      ((List.range m).foldl updateJointSprite c).totalLength = c.totalLength ∧
      ((List.range m).foldl updateJointSprite c).thickness = c.thickness ∧
      ((List.range m).foldl updateJointSprite c).color = c.color ∧
      ((List.range m).foldl updateJointSprite c).midSegmentSprites = c.midSegmentSprites ∧
      ∀ k, ((List.range m).foldl updateJointSprite c).jointSprites.get? k
        = if k < m then
            (c.jointSprites.get? k).map (Option.map fun s =>
              { s with x := (jointPos c k).1, y := (jointPos c k).2 })
          else c.jointSprites.get? k := by
  intro m
  induction m with
  | zero =>
    refine ⟨rfl, rfl, rfl, rfl, rfl, rfl, rfl, ?_⟩
    intro k
    rw [if_neg (Nat.not_lt_zero k)]
    rfl
  | succ nm ih =>
    obtain ⟨h1, h2, h3, h4, h5, h6, h7, h8⟩ := ih
    rw [List.range_succ, List.foldl_append, List.foldl_cons, List.foldl_nil]
    set c0 := (List.range nm).foldl updateJointSprite c with hc0
    obtain ⟨f1, f2, f3, f4, f5, f6, f7⟩ := updateJointSprite_frame c0 nm
    have hjp : jointPos c0 = jointPos c := jointPos_congr h1 h3
    refine ⟨f1.trans h1, f2.trans h2, f3.trans h3, f4.trans h4, f5.trans h5, f6.trans h6,
      f7.trans h7, ?_⟩
    intro k
    rw [updateJointSprite_get? c0 nm k, hjp]
    by_cases hk : k = nm
    · subst hk
      rw [if_pos rfl, if_pos (Nat.lt_succ_self k), h8 k, if_neg (lt_irrefl k)]
    · rw [if_neg hk, h8 k]
      by_cases hlt : k < nm
      · rw [if_pos hlt, if_pos (Nat.lt_succ_of_lt hlt)]
      · rw [if_neg hlt, if_neg ?_]
        intro hlt2
        rcases Nat.lt_succ_iff_lt_or_eq.mp hlt2 with h | h
        · exact hlt h
        · exact hk h

theorem syncMidSegmentSprites_aux (c : IKChain) :
    ∀ m : ℕ,
      ((List.range m).foldl updateMidSegmentSprite c).segments = c.segments ∧
      ((List.range m).foldl updateMidSegmentSprite c).headSprite = c.headSprite ∧
      ((List.range m).foldl updateMidSegmentSprite c).baseSprite = c.baseSprite ∧
      ((List.range m).foldl updateMidSegmentSprite c).totalLength = c.totalLength ∧
      ((List.range m).foldl updateMidSegmentSprite c).thickness = c.thickness ∧
      ((List.range m).foldl updateMidSegmentSprite c).color = c.color ∧
      ((List.range m).foldl updateMidSegmentSprite c).jointSprites = c.jointSprites ∧
      ∀ k, ((List.range m).foldl updateMidSegmentSprite c).midSegmentSprites.get? k
        = if k < m then
            (c.midSegmentSprites.get? k).map (fun info =>
              { info with sprite :=
                { info.sprite with x := (midPoint c info).1, y := (midPoint c info).2 } })
          else c.midSegmentSprites.get? k := by
  intro m
  induction m with
  | zero =>
    refine ⟨rfl, rfl, rfl, rfl, rfl, rfl, rfl, ?_⟩
    intro k
    rw [if_neg (Nat.not_lt_zero k)]
    rfl
  | succ nm ih =>
    obtain ⟨h1, h2, h3, h4, h5, h6, h7, h8⟩ := ih
    rw [List.range_succ, List.foldl_append, List.foldl_cons, List.foldl_nil]
    set c0 := (List.range nm).foldl updateMidSegmentSprite c with hc0
    obtain ⟨f1, f2, f3, f4, f5, f6, f7⟩ := updateMidSegmentSprite_frame c0 nm
    have hmp : midPoint c0 = midPoint c := midPoint_congr h1
    refine ⟨f1.trans h1, f2.trans h2, f3.trans h3, f4.trans h4, f5.trans h5, f6.trans h6,
      f7.trans h7, ?_⟩
    intro k
    rw [updateMidSegmentSprite_get? c0 nm k, hmp]
    by_cases hk : k = nm
    · subst hk
      rw [if_pos rfl, if_pos (Nat.lt_succ_self k), h8 k, if_neg (lt_irrefl k)]
    · rw [if_neg hk, h8 k]
      by_cases hlt : k < nm
      · rw [if_pos hlt, if_pos (Nat.lt_succ_of_lt hlt)]
      · rw [if_neg hlt, if_neg ?_]
        intro hlt2
        rcases Nat.lt_succ_iff_lt_or_eq.mp hlt2 with h | h
        · exact hlt h
        · exact hk h

/-- Invariant of a solver output pose anchored at `(px, py)`: continuity,
anchoring of the first start, geometric consistency and derived angles. -/
def solvedAt (px py : ℝ) (l : List Segment) : Prop :=
  linked l ∧ startsAt px py l ∧ (∀ s ∈ l, segOK s) ∧ (∀ s ∈ l, angOK s)

theorem backwardPass_solvedAt (l : List Segment) (px py : ℝ)
    (hlen : ∀ s ∈ l, 0 ≤ s.length) : solvedAt px py (backwardPass px py l) :=
  ⟨backwardPass_linked l px py, backwardPass_startsAt l px py,
    backwardPass_segOK l px py hlen, backwardPass_angOK l px py⟩

theorem extendChain_solvedAt {a : ℝ} (ha : a ∈ Set.Ioc (-Real.pi) Real.pi)
    (l : List Segment) (px py : ℝ) (hlen : ∀ s ∈ l, 0 < s.length) :
    solvedAt px py (extendChain a px py l) :=
  ⟨extendChain_linked a l px py, extendChain_startsAt a l px py,
    fun s hs => Or.inl (extendChain_segOK a l px py (fun t ht => (hlen t ht).le) s hs),
    extendChain_angOK ha l px py hlen⟩

theorem fabrikIteration_fixed (bx bY tx ty : ℝ) (l : List Segment)
    (hs : solvedAt bx bY l) (hlast : lastEndAt tx ty l) :
    fabrikIteration bx bY tx ty l = l := by
  rw [fabrikIteration, forwardPass_fixed tx ty l hs.1 hs.2.2.1 hlast,
    backwardPass_fixed l bx bY hs.1 hs.2.1 hs.2.2.1 hs.2.2.2]

/-- Segment list produced by one solver call for a chain whose head and base
sprites are present. -/
noncomputable def solveSegs (c : IKChain) (head base : Sprite) : List Segment :=
  if norm2 (head.x - base.x) (head.y - base.y) > c.totalLength then
    extendChain (atan2 (head.y - base.y) (head.x - base.x)) base.x base.y c.segments
  else
    (fabrikIteration base.x base.y head.x head.y)^[10] c.segments

theorem updatePositions_guard (c : IKChain)
    (h : c.headSprite = none ∨ c.baseSprite = none ∨ c.segments = []) :
    updatePositions c = c := by
  rcases c with ⟨segs, oh, ob, tl, th, co, js, ms⟩
  cases oh with
  | none => rfl
  | some head =>
    cases ob with
    | none => rfl
    | some base =>
      rcases h with h | h | h
      · exact absurd h (by simp)
      · exact absurd h (by simp)
      · simp only at h
        subst h
        rfl

theorem updatePositions_eq (c : IKChain) (head base : Sprite)
    (hh : c.headSprite = some head) (hb : c.baseSprite = some base)
    (hne : c.segments ≠ []) :
    updatePositions c = syncMidSegmentSprites (syncJointSprites
      { c with
        segments := solveSegs c head base
        headSprite := some
          { head with
            x := ((solveSegs c head base).getLastD default).endX
            y := ((solveSegs c head base).getLastD default).endY } }) := by
  rcases c with ⟨segs, oh, ob, tl, th, co, js, ms⟩
  simp only at hh hb hne
  subst hh
  subst hb
  simp only [updatePositions]
  rw [if_neg (by simpa using fun h => hne (List.length_eq_zero.mp h))]
  simp only [solveSegs]

theorem syncJointSprites_spec (c : IKChain) :
    (syncJointSprites c).segments = c.segments ∧
    (syncJointSprites c).headSprite = c.headSprite ∧
    (syncJointSprites c).baseSprite = c.baseSprite ∧
    (syncJointSprites c).totalLength = c.totalLength ∧
    (syncJointSprites c).thickness = c.thickness ∧
    (syncJointSprites c).color = c.color ∧
    (syncJointSprites c).midSegmentSprites = c.midSegmentSprites ∧
    ∀ k, (syncJointSprites c).jointSprites.get? k
      = (c.jointSprites.get? k).map (Option.map fun s =>
          { s with x := (jointPos c k).1, y := (jointPos c k).2 }) := by
  obtain ⟨h1, h2, h3, h4, h5, h6, h7, h8⟩ := syncJointSprites_aux c c.jointSprites.length
  refine ⟨h1, h2, h3, h4, h5, h6, h7, ?_⟩
  intro k
  by_cases hk : k < c.jointSprites.length
  · have hx := h8 k
    rw [if_pos hk] at hx
    exact hx
  · have hx := h8 k
    rw [if_neg hk] at hx
    have hnone : c.jointSprites.get? k = none :=
      List.get?_eq_none.mpr (Nat.le_of_not_lt hk)
    rw [hnone] at hx
    rw [hnone]
    exact hx

theorem syncMidSegmentSprites_spec (c : IKChain) :
    (syncMidSegmentSprites c).segments = c.segments ∧
    (syncMidSegmentSprites c).headSprite = c.headSprite ∧
    (syncMidSegmentSprites c).baseSprite = c.baseSprite ∧
    (syncMidSegmentSprites c).totalLength = c.totalLength ∧
    (syncMidSegmentSprites c).thickness = c.thickness ∧
    (syncMidSegmentSprites c).color = c.color ∧
    (syncMidSegmentSprites c).jointSprites = c.jointSprites ∧
    ∀ k, (syncMidSegmentSprites c).midSegmentSprites.get? k
      = (c.midSegmentSprites.get? k).map (fun info =>
          { info with sprite :=
            { info.sprite with x := (midPoint c info).1, y := (midPoint c info).2 } }) := by
  obtain ⟨h1, h2, h3, h4, h5, h6, h7, h8⟩ :=
    syncMidSegmentSprites_aux c c.midSegmentSprites.length
  refine ⟨h1, h2, h3, h4, h5, h6, h7, ?_⟩
  intro k
  by_cases hk : k < c.midSegmentSprites.length
  · have hx := h8 k
    rw [if_pos hk] at hx
    exact hx
  · have hx := h8 k
    rw [if_neg hk] at hx
    have hnone : c.midSegmentSprites.get? k = none :=
      List.get?_eq_none.mpr (Nat.le_of_not_lt hk)
    rw [hnone] at hx
    rw [hnone]
    exact hx

theorem updatePositions_segments (c : IKChain) (head base : Sprite)
    (hh : c.headSprite = some head) (hb : c.baseSprite = some base)
    (hne : c.segments ≠ []) :
    (updatePositions c).segments = solveSegs c head base := by
  rw [updatePositions_eq c head base hh hb hne,
    (syncMidSegmentSprites_spec _).1, (syncJointSprites_spec _).1]

theorem updatePositions_headSprite (c : IKChain) (head base : Sprite)
    (hh : c.headSprite = some head) (hb : c.baseSprite = some base)
    (hne : c.segments ≠ []) :
    (updatePositions c).headSprite = some
      { head with
        x := ((solveSegs c head base).getLastD default).endX
        y := ((solveSegs c head base).getLastD default).endY } := by
  rw [updatePositions_eq c head base hh hb hne,
    (syncMidSegmentSprites_spec _).2.1, (syncJointSprites_spec _).2.1]

theorem updatePositions_frame (c : IKChain) :
    (updatePositions c).baseSprite = c.baseSprite ∧
    (updatePositions c).totalLength = c.totalLength ∧
    (updatePositions c).thickness = c.thickness ∧
    (updatePositions c).color = c.color := by
  rcases hh : c.headSprite with _ | head
  · rw [updatePositions_guard c (Or.inl hh)]
    exact ⟨rfl, rfl, rfl, rfl⟩
  rcases hb : c.baseSprite with _ | base
  · rw [updatePositions_guard c (Or.inr (Or.inl hb))]
    exact ⟨hb, rfl, rfl, rfl⟩
  by_cases hne : c.segments = []
  · rw [updatePositions_guard c (Or.inr (Or.inr hne))]
    exact ⟨hb, rfl, rfl, rfl⟩
  rw [updatePositions_eq c head base hh hb hne]
  obtain ⟨m1, m2, m3, m4, m5, m6, m7, m8⟩ := syncMidSegmentSprites_spec
    (syncJointSprites
      { c with
        segments := solveSegs c head base
        headSprite := some
          { head with
            x := ((solveSegs c head base).getLastD default).endX
            y := ((solveSegs c head base).getLastD default).endY } })
  obtain ⟨j1, j2, j3, j4, j5, j6, j7, j8⟩ := syncJointSprites_spec
    { c with
      segments := solveSegs c head base
      headSprite := some
        { head with
          x := ((solveSegs c head base).getLastD default).endX
          y := ((solveSegs c head base).getLastD default).endY } }
  exact ⟨(m3.trans j3).trans hb, m4.trans j4, m5.trans j5, m6.trans j6⟩

theorem solveSegs_map_length (c : IKChain) (head base : Sprite) :
    (solveSegs c head base).map Segment.length = c.segments.map Segment.length := by
  rw [solveSegs]
  split
  · rw [extendChain_map_length]
  · rw [fabrikIterate_map_length]

theorem solveSegs_ne_nil (c : IKChain) (head base : Sprite) (hne : c.segments ≠ []) :
    solveSegs c head base ≠ [] := by
  intro h
  apply hne
  have := solveSegs_map_length c head base
  rw [h] at this
  exact List.map_eq_nil.mp this.symm

theorem solveSegs_solvedAt (c : IKChain) (head base : Sprite)
    (hlen : ∀ s ∈ c.segments, 0 < s.length) :
    solvedAt base.x base.y (solveSegs c head base) := by
  rw [solveSegs]
  split
  · exact extendChain_solvedAt (atan2_mem_Ioc _ _) _ _ _ hlen
  · rw [show (10 : ℕ) = 9 + 1 from rfl, Function.iterate_succ_apply', fabrikIteration]
    apply backwardPass_solvedAt
    refine map_length_transfer (fun v => 0 ≤ v) _ c.segments ?_ ?_
    · rw [forwardPass_map_length, fabrikIterate_map_length]
    · exact fun s hs => (hlen s hs).le

theorem solveSegs_lastEnd_bound (c : IKChain) (head base : Sprite)
    (hwf : wellFormed c) (hne : c.segments ≠ []) :
    norm2 (((solveSegs c head base).getLastD default).endX - base.x)
      (((solveSegs c head base).getLastD default).endY - base.y) ≤ c.totalLength := by
  have hs := solveSegs_solvedAt c head base hwf.2
  have hlen : ∀ s ∈ solveSegs c head base, 0 ≤ s.length :=
    map_length_transfer (fun v => 0 ≤ v) _ c.segments (solveSegs_map_length c head base)
      (fun s hsm => (hwf.2 s hsm).le)
  have hbound := chain_dist_bound (solveSegs c head base) base.x base.y
    (solveSegs_ne_nil c head base hne) hs.1 hs.2.1 hs.2.2.1 hlen
  have hsum : sumLen (solveSegs c head base) = sumLen c.segments := by
    rw [sumLen, sumLen, solveSegs_map_length]
  rw [hsum] at hbound
  rw [hwf.1]
  exact hbound

theorem syncMid_idem (z : IKChain) :
    syncMidSegmentSprites (syncMidSegmentSprites z) = syncMidSegmentSprites z := by
  obtain ⟨m1, m2, m3, m4, m5, m6, m7, m8⟩ := syncMidSegmentSprites_spec z
  obtain ⟨s1, s2, s3, s4, s5, s6, s7, s8⟩ :=
    syncMidSegmentSprites_spec (syncMidSegmentSprites z)
  refine IKChain.ext s1 s2 s3 s4 s5 s6 s7 ?_
  refine List.ext_get?_iff.mpr ?_
  intro k
  rw [s8 k, m8 k]
  rw [midPoint_congr m1]
  cases z.midSegmentSprites.get? k with
  | none => rfl
  | some info => rfl

theorem syncJoint_after (z : IKChain) :
    syncJointSprites (syncMidSegmentSprites (syncJointSprites z))
      = syncMidSegmentSprites (syncJointSprites z) := by
  obtain ⟨j1, j2, j3, j4, j5, j6, j7, j8⟩ := syncJointSprites_spec z
  obtain ⟨m1, m2, m3, m4, m5, m6, m7, m8⟩ := syncMidSegmentSprites_spec (syncJointSprites z)
  obtain ⟨s1, s2, s3, s4, s5, s6, s7, s8⟩ :=
    syncJointSprites_spec (syncMidSegmentSprites (syncJointSprites z))
  refine IKChain.ext s1 s2 s3 s4 s5 s6 ?_ s7
  refine List.ext_get?_iff.mpr ?_
  intro k
  rw [s8 k, m7, j8 k]
  have hjp : jointPos (syncMidSegmentSprites (syncJointSprites z)) = jointPos z :=
    jointPos_congr (m1.trans j1) (m3.trans j3)
  rw [hjp]
  cases z.jointSprites.get? k with
  | none => rfl
  | some o =>
    cases o with
    | none => rfl
    | some s => rfl

theorem sync_idem (z : IKChain) :
    syncMidSegmentSprites (syncJointSprites
      (syncMidSegmentSprites (syncJointSprites z)))
      = syncMidSegmentSprites (syncJointSprites z) := by
  rw [syncJoint_after z, syncMid_idem (syncJointSprites z)]

theorem updatePositions_idem (c : IKChain) (head base : Sprite)
    (hh : c.headSprite = some head) (hb : c.baseSprite = some base)
    (hne : c.segments ≠ []) (hwf : wellFormed c) :
    updatePositions (updatePositions c) = updatePositions c := by
  have hseg := updatePositions_segments c head base hh hb hne
  have hhead1 := updatePositions_headSprite c head base hh hb hne
  obtain ⟨hbase1, htl, _, _⟩ := updatePositions_frame c
  rw [hb] at hbase1
  have hne2 : (updatePositions c).segments ≠ [] := by
    rw [hseg]
    exact solveSegs_ne_nil c head base hne
  have hsolve2 : solveSegs (updatePositions c)
      { head with
        x := ((solveSegs c head base).getLastD default).endX
        y := ((solveSegs c head base).getLastD default).endY } base
      = solveSegs c head base := by
    rw [solveSegs]
    rw [if_neg ?_]
    · rw [hseg]
      refine Function.iterate_fixed ?_ 10
      refine fabrikIteration_fixed base.x base.y _ _ (solveSegs c head base)
        (solveSegs_solvedAt c head base hwf.2) ?_
      intro _
      exact ⟨rfl, rfl⟩
    · rw [not_lt, htl]
      exact solveSegs_lastEnd_bound c head base hwf hne
  have hstep := updatePositions_eq (updatePositions c)
    ({ head with
      x := ((solveSegs c head base).getLastD default).endX
      y := ((solveSegs c head base).getLastD default).endY }) base hhead1 hbase1 hne2
  rw [hstep, hsolve2]
  have hchain : ({ updatePositions c with
      segments := solveSegs c head base
      headSprite := some
        { { head with
            x := ((solveSegs c head base).getLastD default).endX
            y := ((solveSegs c head base).getLastD default).endY } with
          x := ((solveSegs c head base).getLastD default).endX
          y := ((solveSegs c head base).getLastD default).endY } } : IKChain)
      = updatePositions c := by
    refine IKChain.ext ?_ ?_ rfl rfl rfl rfl rfl rfl
    · exact hseg.symm
    · exact hhead1.symm
  rw [hchain]
  rw [updatePositions_eq c head base hh hb hne]
  exact sync_idem _

theorem sumLen_nonneg (l : List Segment) (h : ∀ s ∈ l, 0 ≤ s.length) : 0 ≤ sumLen l := by
  rw [sumLen]
  apply List.sum_nonneg
  intro x hx
  obtain ⟨s, hs, hsx⟩ := List.mem_map.mp hx
  rw [← hsx]
  exact h s hs

theorem set_concat {α : Type} (l : List α) (a b : α) :
    (l ++ [a]).set l.length b = l ++ [b] := by
  induction l with
  | nil => rfl
  | cons x t ih => simp [ih]

theorem syncJointSprites_of_nil (c : IKChain) (h : c.jointSprites = []) :
    syncJointSprites c = c := by
  rw [syncJointSprites, h, List.length_nil, List.range_zero, List.foldl_nil]

theorem syncMidSegmentSprites_of_nil (c : IKChain) (h : c.midSegmentSprites = []) :
    syncMidSegmentSprites c = c := by
  rw [syncMidSegmentSprites, h, List.length_nil, List.range_zero, List.foldl_nil]

theorem initPositions_map_length (c : IKChain) :
    (initPositions c).segments.map Segment.length = c.segments.map Segment.length := by
  rw [initPositions]
  split
  · rfl
  · split
    · rfl
    · exact extendChain_map_length _ _ _ _

/-- Closed form of a valid `addJointSprite` call: the joint list is padded,
the sprite is stored at the index, and its position is immediately written
from the chain's current geometry. -/
theorem addJointSprite_valid (c : IKChain) (s : Sprite) (j : ℤ)
    (h0 : 0 ≤ j) (h1 : j ≤ (c.segments.length : ℤ)) :
    addJointSprite c s j = { c with
      jointSprites := (c.jointSprites
        ++ List.replicate (j.toNat + 1 - c.jointSprites.length) none).set j.toNat
          (some { s with x := (jointPos c j.toNat).1, y := (jointPos c j.toNat).2 }) } := by
  rw [addJointSprite, if_neg (by push_neg; exact ⟨h0, h1⟩)]
  set js := c.jointSprites ++ List.replicate (j.toNat + 1 - c.jointSprites.length) none with hjs
  have hlenpad : j.toNat < js.length := by
    rw [hjs, List.length_append, List.length_replicate]
    omega
  have hget : (js.set j.toNat (some s)).getD j.toNat none = some s := by
    rw [List.getD_eq_get?, List.get?_set_eq]
    cases hx : js.get? j.toNat with
    | none =>
      rw [List.get?_eq_none] at hx
      omega
    | some o => rfl
  rw [updateJointSprite]
  split
  · rename_i heq
    rw [hget] at heq
    exact absurd heq (by simp)
  · rename_i sp heq
    rw [hget] at heq
    have hsp : sp = s := (Option.some.inj heq).symm
    subst hsp
    have hjp := jointPos_congr
      (show ({ c with jointSprites := js.set j.toNat (some sp) }).segments
        = c.segments from rfl)
      (show ({ c with jointSprites := js.set j.toNat (some sp) }).baseSprite
        = c.baseSprite from rfl)
    rw [hjp]
    simp only [List.set_set]

/-- Closed form of a valid `addMidSegmentSprite` call: the entry is appended
with its position clamped to `[0, 1]`, and the sprite is immediately moved to
the interpolated point on the referenced segment. -/
theorem addMidSegmentSprite_valid (c : IKChain) (t : Sprite) (i : ℤ) (p : ℝ)
    (h0 : 0 ≤ i) (h1 : i < (c.segments.length : ℤ)) :
    addMidSegmentSprite c t i p = { c with
      midSegmentSprites := c.midSegmentSprites ++
        [{ sprite := { t with
              x := (c.segments.getD i.toNat default).startX
                + ((c.segments.getD i.toNat default).endX
                  - (c.segments.getD i.toNat default).startX) * max 0 (min 1 p)
              y := (c.segments.getD i.toNat default).startY
                + ((c.segments.getD i.toNat default).endY
                  - (c.segments.getD i.toNat default).startY) * max 0 (min 1 p) }
           segmentIndex := i.toNat
           position := max 0 (min 1 p) }] } := by
  rw [addMidSegmentSprite, if_neg (by push_neg; exact ⟨h0, h1⟩)]
  rw [updateMidSegmentSprite]
  have hlen : (c.midSegmentSprites
      ++ [(⟨t, i.toNat, max 0 (min 1 p)⟩ : MidInfo)]).length - 1
      = c.midSegmentSprites.length := by
    rw [List.length_append]
    simp
  split
  · rename_i heq
    rw [hlen, List.get?_concat_length] at heq
    exact absurd heq (by simp)
  · rename_i info heq
    rw [hlen, List.get?_concat_length] at heq
    have hinfo : info = ⟨t, i.toNat, max 0 (min 1 p)⟩ := by simpa using heq.symm
    subst hinfo
    simp only [midPoint, hlen, set_concat]

/-- Concrete chain used for counterexamples and hypothesis witnesses: one
segment of length `3`, base sprite at the origin, head (target) sprite at
`(5, 0)` — an out-of-reach target at distance `5 > 3`. -/
noncomputable def chainA : IKChain :=
  { segments := [{ startX := 0, startY := 0, endX := 0, endY := 0, angle := 0, length := 3 }]
    headSprite := some ⟨5, 0⟩
    baseSprite := some ⟨0, 0⟩
    totalLength := 3
    thickness := 2
    color := 1
    jointSprites := []
    midSegmentSprites := [] }

theorem chainA_norm : norm2 ((5 : ℝ) - 0) ((0 : ℝ) - 0) = 5 := by
  rw [norm2, show ((5 : ℝ) - 0) * ((5 : ℝ) - 0) + ((0 : ℝ) - 0) * ((0 : ℝ) - 0)
      = 5 ^ 2 by norm_num]
  exact Real.sqrt_sq (by norm_num)

theorem chainA_atan2 : atan2 ((0 : ℝ) - 0) ((5 : ℝ) - 0) = 0 := by
  rw [atan2]
  have hmk : (⟨(5 : ℝ) - 0, (0 : ℝ) - 0⟩ : ℂ) = ((5 : ℝ) : ℂ) := by
    apply Complex.ext <;> simp
  rw [hmk]
  exact Complex.arg_ofReal_of_nonneg (by norm_num)

theorem chainA_solve : solveSegs chainA ⟨5, 0⟩ ⟨0, 0⟩
    = [{ startX := 0, startY := 0, endX := 3, endY := 0, angle := 0, length := 3 }] := by
  rw [solveSegs]
  rw [if_pos ?_]
  · show extendChain (atan2 ((0 : ℝ) - 0) ((5 : ℝ) - 0)) 0 0 chainA.segments = _
    rw [chainA_atan2]
    show extendChain 0 0 0
      [{ startX := 0, startY := 0, endX := 0, endY := 0, angle := 0, length := 3 }] = _
    simp only [extendChain, Real.cos_zero, Real.sin_zero]
    norm_num
  · show norm2 ((5 : ℝ) - 0) ((0 : ℝ) - 0) > chainA.totalLength
    rw [chainA_norm]
    show (5 : ℝ) > 3
    norm_num

theorem updatePositions_chainA :
    updatePositions chainA = { chainA with
      segments := [{ startX := 0, startY := 0, endX := 3, endY := 0, angle := 0, length := 3 }]
      headSprite := some ⟨3, 0⟩ } := by
  rw [updatePositions_eq chainA ⟨5, 0⟩ ⟨0, 0⟩ rfl rfl (by simp [chainA])]
  rw [chainA_solve]
  rw [syncJointSprites_of_nil _ rfl]
  rw [syncMidSegmentSprites_of_nil _ rfl]
  rfl

/-- C1, counterexample: the claim says a solver call (`updatePositions`) has
no side effects beyond `chain.segments` and in particular does not write the
head/target sprite.  On `chainA` (head at `(5, 0)`, base at the origin, one
segment of length `3`) the call moves the head sprite to the end effector
`(3, 0)`, so the head sprite is written and the claim is false. -/
theorem C1_counterexample : (updatePositions chainA).headSprite ≠ chainA.headSprite := by
  rw [updatePositions_chainA]
  intro h
  have h2 : (⟨3, 0⟩ : Sprite) = ⟨5, 0⟩ := Option.some.inj h
  have h3 : (3 : ℝ) = 5 := congrArg Sprite.x h2
  norm_num at h3

/-- C2, counterexample: the claim says construction with `segmentCount < 1`
fails (returns no chain or reports an error).  The code performs no
validation: `createIKChain 0 5 1 2 head base` returns an ordinary chain
object with an empty segment list and `totalLength` `0`. -/
theorem C2_counterexample :
    createIKChain 0 5 1 2 (some ⟨0, 0⟩) (some ⟨0, 0⟩)
      = { segments := []
          headSprite := some ⟨0, 0⟩
          baseSprite := some ⟨0, 0⟩
          totalLength := 0
          thickness := 2
          color := 1
          jointSprites := []
          midSegmentSprites := [] } := by
  simp [createIKChain, IKChain.make, initPositions]

theorem createIKChain_map_length (n : ℤ) (len colorv thicknessv : ℝ)
    (hsp bsp : Option Sprite) :
    (createIKChain n len colorv thicknessv hsp bsp).segments.map Segment.length
      = List.replicate n.toNat len := by
  rw [createIKChain, IKChain.make, initPositions_map_length]
  simp [List.map_replicate]

theorem createIKChain_totalLength (n : ℤ) (len colorv thicknessv : ℝ)
    (hsp bsp : Option Sprite) :
    (createIKChain n len colorv thicknessv hsp bsp).totalLength = (n.toNat : ℝ) * len := by
  rw [createIKChain, IKChain.make, initPositions]
  split
  · rfl
  · split <;> rfl

theorem mem_length_of_map_replicate {l : List Segment} {n : ℕ} {len : ℝ}
    (h : l.map Segment.length = List.replicate n len) : ∀ s ∈ l, s.length = len := by
  intro s hs
  have hmem : s.length ∈ List.replicate n len := h ▸ List.mem_map_of_mem _ hs
  exact List.eq_of_mem_replicate hmem

/-- C2, amended: construction never fails and always returns a chain object.
With `segmentCount < 1` the loop body runs zero times, so the chain has no
segments and `totalLength` `0`; the given `segmentLength` (validated nowhere,
so possibly non-positive) is stored verbatim in every created segment. -/
theorem C2_amended (n : ℤ) (len colorv thicknessv : ℝ) (hsp bsp : Option Sprite) :
    (n < 1 →
      (createIKChain n len colorv thicknessv hsp bsp).segments = [] ∧
      (createIKChain n len colorv thicknessv hsp bsp).totalLength = 0) ∧
    (∀ s ∈ (createIKChain n len colorv thicknessv hsp bsp).segments, s.length = len) := by
  constructor
  · intro hn
    have htn : n.toNat = 0 := by omega
    constructor
    · have h0 := createIKChain_map_length n len colorv thicknessv hsp bsp
      rw [htn, List.replicate_zero] at h0
      exact List.map_eq_nil.mp h0
    · rw [createIKChain_totalLength, htn]
      norm_num
  · exact mem_length_of_map_replicate (createIKChain_map_length n len colorv thicknessv hsp bsp)

theorem C2_witness :
    ((0 : ℤ) < 1 →
      (createIKChain 0 5 1 2 (some ⟨0, 0⟩) (some ⟨0, 0⟩)).segments = [] ∧
      (createIKChain 0 5 1 2 (some ⟨0, 0⟩) (some ⟨0, 0⟩)).totalLength = 0) ∧
    (∀ s ∈ (createIKChain 0 5 1 2 (some ⟨0, 0⟩) (some ⟨0, 0⟩)).segments, s.length = 5) :=
  C2_amended 0 5 1 2 (some ⟨0, 0⟩) (some ⟨0, 0⟩)

/-- C6: with the base and target positions left alone between calls (the
solver itself moves the head sprite onto the end effector, so an untouched
target means the target is the previous end effector), repeated solver calls
reach a stable fixed pose: from the second call on, every call reproduces the
previous state exactly, so the positional delta between consecutive calls is
zero. -/
theorem C6_static_target_convergence (c : IKChain) (head base : Sprite)
    (hh : c.headSprite = some head) (hb : c.baseSprite = some base)
    (hne : c.segments ≠ []) (hwf : wellFormed c) :
    ∀ nIter : ℕ, 1 ≤ nIter →
      updatePositions^[nIter + 1] c = updatePositions^[nIter] c := by
  have hidem := updatePositions_idem c head base hh hb hne hwf
  have key : ∀ n : ℕ, 1 ≤ n → updatePositions^[n] c = updatePositions c := by
    intro n
    induction n with
    | zero =>
      intro h0
      exact absurd h0 (by omega)
    | succ m ih =>
      intro _
      cases Nat.eq_zero_or_pos m with
      | inl h =>
        subst h
        rw [Function.iterate_one]
      | inr h =>
        rw [Function.iterate_succ_apply', ih h]
        exact hidem
  intro nIter h1
  rw [key (nIter + 1) (by omega), key nIter h1]

theorem C6_witness :
    chainA.headSprite = some ⟨5, 0⟩ ∧ chainA.baseSprite = some ⟨0, 0⟩ ∧
    chainA.segments ≠ [] ∧ wellFormed chainA ∧
    (∀ nIter : ℕ, 1 ≤ nIter →
      updatePositions^[nIter + 1] chainA = updatePositions^[nIter] chainA) :=
  ⟨rfl, rfl, by simp [chainA], ⟨by simp [chainA, sumLen], by simp [chainA]⟩,
    C6_static_target_convergence chainA ⟨5, 0⟩ ⟨0, 0⟩ rfl rfl (by simp [chainA])
      ⟨by simp [chainA, sumLen], by simp [chainA]⟩⟩

/-- C7: a joint attachment at an index outside `[0, segmentCount]` and a
mid-segment attachment at a segment index outside `[0, segmentCount)` are
silent no-ops that leave the chain unchanged (and, the functions being total,
raise nothing), while a valid mid-segment attachment stores its position
clamped to `[0, 1]` instead of rejecting it. -/
theorem C7_invalid_index_noop (c : IKChain) (s t : Sprite) (j i : ℤ) (p : ℝ) :
    (j < 0 ∨ j > (c.segments.length : ℤ) → addJointSprite c s j = c) ∧
    (i < 0 ∨ (c.segments.length : ℤ) ≤ i → addMidSegmentSprite c t i p = c) ∧
    (0 ≤ i → i < (c.segments.length : ℤ) →
      ((addMidSegmentSprite c t i p).midSegmentSprites.getLastD default).position
        = max 0 (min 1 p)) := by
  refine ⟨?_, ?_, ?_⟩
  · intro h
    rw [addJointSprite, if_pos h]
  · intro h
    rw [addMidSegmentSprite, if_pos h]
  · intro h0 h1
    rw [addMidSegmentSprite_valid c t i p h0 h1, List.getLastD_concat]

theorem C7_witness :
    addJointSprite chainA ⟨9, 9⟩ (-1) = chainA ∧
    addMidSegmentSprite chainA ⟨9, 9⟩ 2 (1 / 2) = chainA ∧
    ((addMidSegmentSprite chainA ⟨9, 9⟩ 0 2).midSegmentSprites.getLastD default).position
      = max 0 (min 1 2) :=
  ⟨(C7_invalid_index_noop chainA ⟨9, 9⟩ ⟨9, 9⟩ (-1) 2 (1 / 2)).1 (Or.inl (by norm_num)),
   (C7_invalid_index_noop chainA ⟨9, 9⟩ ⟨9, 9⟩ (-1) 2 (1 / 2)).2.1
     (Or.inr (by simp [chainA])),
   (C7_invalid_index_noop chainA ⟨9, 9⟩ ⟨9, 9⟩ (-1) 0 2).2.2 (by norm_num)
     (by simp [chainA])⟩

/-- C9: in both passes, when the pre-rescale distance of a segment's pinned
endpoints is zero, the rescale (the only place that divides by that distance)
is skipped for that segment in that iteration: the step only performs the pin
(plus the unconditional angle recomputation in the backward pass) and the two
endpoints are left coincident.  Both step functions are total, so nothing is
surfaced to the caller. -/
theorem C9_zero_length_skip (px py : ℝ) (seg : Segment) :
    (norm2 (px - seg.startX) (py - seg.startY) = 0 →
      forwardSegStep px py seg = { seg with endX := px, endY := py } ∧
      px = seg.startX ∧ py = seg.startY) ∧
    (norm2 (seg.endX - px) (seg.endY - py) = 0 →
      backwardSegStep px py seg
        = { seg with
            startX := px
            startY := py
            angle := atan2 (seg.endY - py) (seg.endX - px) } ∧
      seg.endX = px ∧ seg.endY = py) := by
  constructor
  · intro h
    obtain ⟨hx, hy⟩ := norm2_eq_zero h
    have hnot : ¬ norm2 (px - seg.startX) (py - seg.startY) > 0 := by
      rw [h]
      exact lt_irrefl 0
    refine ⟨?_, by linarith, by linarith⟩
    simp only [forwardSegStep]
    rw [if_neg hnot]
  · intro h
    obtain ⟨hx, hy⟩ := norm2_eq_zero h
    have hnot : ¬ norm2 (seg.endX - px) (seg.endY - py) > 0 := by
      rw [h]
      exact lt_irrefl 0
    refine ⟨?_, by linarith, by linarith⟩
    simp only [backwardSegStep]
    rw [if_neg hnot]

theorem C9_witness :
    norm2 ((0 : ℝ) - Segment.startX ⟨0, 0, 7, 7, 0, 3⟩)
        ((0 : ℝ) - Segment.startY ⟨0, 0, 7, 7, 0, 3⟩) = 0 ∧
    (forwardSegStep 0 0 ⟨0, 0, 7, 7, 0, 3⟩
        = { (⟨0, 0, 7, 7, 0, 3⟩ : Segment) with endX := 0, endY := 0 } ∧
      (0 : ℝ) = Segment.startX ⟨0, 0, 7, 7, 0, 3⟩ ∧
      (0 : ℝ) = Segment.startY ⟨0, 0, 7, 7, 0, 3⟩) := by
  have h0 : norm2 ((0 : ℝ) - Segment.startX ⟨0, 0, 7, 7, 0, 3⟩)
      ((0 : ℝ) - Segment.startY ⟨0, 0, 7, 7, 0, 3⟩) = 0 := by
    simp [norm2]
  exact ⟨h0, (C9_zero_length_skip 0 0 ⟨0, 0, 7, 7, 0, 3⟩).1 h0⟩

/-- C10: a valid attachment add writes the bound sprite's position
immediately, from the chain's geometry as it is at insertion time: the joint
entry holds the sprite already moved to the joint coordinate, and the
mid-segment entry holds the sprite already moved to the interpolated point of
its (clamped) position. -/
theorem C10_immediate_bind (c : IKChain) (s t : Sprite) (j i : ℤ) (p : ℝ)
    (hj0 : 0 ≤ j) (hj1 : j ≤ (c.segments.length : ℤ))
    (hi0 : 0 ≤ i) (hi1 : i < (c.segments.length : ℤ)) :
    (addJointSprite c s j).jointSprites.getD j.toNat none
      = some { s with x := (jointPos c j.toNat).1, y := (jointPos c j.toNat).2 } ∧
    (addMidSegmentSprite c t i p).midSegmentSprites.getLastD default
      = { sprite := { t with
            x := (c.segments.getD i.toNat default).startX
              + ((c.segments.getD i.toNat default).endX
                - (c.segments.getD i.toNat default).startX) * max 0 (min 1 p)
            y := (c.segments.getD i.toNat default).startY
              + ((c.segments.getD i.toNat default).endY
                - (c.segments.getD i.toNat default).startY) * max 0 (min 1 p) }
          segmentIndex := i.toNat
          position := max 0 (min 1 p) } := by
  constructor
  · rw [addJointSprite_valid c s j hj0 hj1]
    rw [List.getD_eq_get?, List.get?_set_eq]
    cases hx : (c.jointSprites
        ++ List.replicate (j.toNat + 1 - c.jointSprites.length) none).get? j.toNat with
    | none =>
      rw [List.get?_eq_none, List.length_append, List.length_replicate] at hx
      omega
    | some o => rfl
  · rw [addMidSegmentSprite_valid c t i p hi0 hi1, List.getLastD_concat]

theorem C10_witness :
    (0 : ℤ) ≤ 1 ∧ (1 : ℤ) ≤ (chainA.segments.length : ℤ) ∧
    (0 : ℤ) ≤ 0 ∧ (0 : ℤ) < (chainA.segments.length : ℤ) ∧
    ((addJointSprite chainA ⟨9, 9⟩ 1).jointSprites.getD (1 : ℤ).toNat none
      = some { (⟨9, 9⟩ : Sprite) with
          x := (jointPos chainA (1 : ℤ).toNat).1
          y := (jointPos chainA (1 : ℤ).toNat).2 } ∧
    (addMidSegmentSprite chainA ⟨9, 9⟩ 0 2).midSegmentSprites.getLastD default
      = { sprite := { (⟨9, 9⟩ : Sprite) with
            x := (chainA.segments.getD (0 : ℤ).toNat default).startX
              + ((chainA.segments.getD (0 : ℤ).toNat default).endX
                - (chainA.segments.getD (0 : ℤ).toNat default).startX) * max 0 (min 1 2)
            y := (chainA.segments.getD (0 : ℤ).toNat default).startY
              + ((chainA.segments.getD (0 : ℤ).toNat default).endY
                - (chainA.segments.getD (0 : ℤ).toNat default).startY) * max 0 (min 1 2) }
          segmentIndex := (0 : ℤ).toNat
          position := max 0 (min 1 2) }) :=
  ⟨by norm_num, by simp [chainA], by norm_num, by simp [chainA],
    C10_immediate_bind chainA ⟨9, 9⟩ ⟨9, 9⟩ 1 0 2 (by norm_num) (by simp [chainA])
      (by norm_num) (by simp [chainA])⟩

theorem solveSegs_linked (c : IKChain) (head base : Sprite) :
    linked (solveSegs c head base) := by
  rw [solveSegs]
  split
  · exact extendChain_linked _ _ _ _
  · rw [show (10 : ℕ) = 9 + 1 from rfl, Function.iterate_succ_apply', fabrikIteration]
    generalize forwardPass head.x head.y
      ((fabrikIteration base.x base.y head.x head.y)^[9] c.segments) = L
    apply backwardPass_linked

/-- C4: after any completed solver call, every segment's endpoint distance
equals its fixed length, except a segment that hit the zero-length degeneracy
in the final iteration, which is left with coincident endpoints.  Over real
arithmetic the equality is exact, so it holds within any epsilon. -/
theorem C4_length_invariant (c : IKChain) (head base : Sprite)
    (hh : c.headSprite = some head) (hb : c.baseSprite = some base)
    (hne : c.segments ≠ []) (hlen : ∀ s ∈ c.segments, 0 < s.length) :
    ∀ s ∈ (updatePositions c).segments,
      segDist s = s.length ∨ (s.endX = s.startX ∧ s.endY = s.startY) := by
  have hOK : ∀ s ∈ (updatePositions c).segments, segOK s := by
    rw [updatePositions_segments c head base hh hb hne]
    exact (solveSegs_solvedAt c head base hlen).2.2.1
  exact hOK

theorem C4_witness :
    chainA.headSprite = some ⟨5, 0⟩ ∧ chainA.baseSprite = some ⟨0, 0⟩ ∧
    chainA.segments ≠ [] ∧ (∀ s ∈ chainA.segments, 0 < s.length) ∧
    ∀ s ∈ (updatePositions chainA).segments,
      segDist s = s.length ∨ (s.endX = s.startX ∧ s.endY = s.startY) :=
  ⟨rfl, rfl, by simp [chainA], by simp [chainA],
    C4_length_invariant chainA ⟨5, 0⟩ ⟨0, 0⟩ rfl rfl (by simp [chainA]) (by simp [chainA])⟩

/-- C5: after any completed solver call every segment starts exactly where its
predecessor ends, in both the unreachable branch (consecutive placement along
the ray) and the reachable branch (the backward pass re-anchors each segment
at its predecessor's end). -/
theorem C5_continuity (c : IKChain) (head base : Sprite)
    (hh : c.headSprite = some head) (hb : c.baseSprite = some base)
    (hne : c.segments ≠ []) :
    ∀ i : ℕ, i + 1 < (updatePositions c).segments.length →
      ((updatePositions c).segments.getD (i + 1) default).startX
        = ((updatePositions c).segments.getD i default).endX ∧
      ((updatePositions c).segments.getD (i + 1) default).startY
        = ((updatePositions c).segments.getD i default).endY := by
  have hlink : linked (updatePositions c).segments := by
    rw [updatePositions_segments c head base hh hb hne]
    exact solveSegs_linked c head base
  intro i hi
  rw [linked, List.chain'_iff_get] at hlink
  have h := hlink i (by omega)
  rw [List.getD_eq_get _ _ hi,
    List.getD_eq_get _ _ (by omega : i < (updatePositions c).segments.length)]
  exact h

theorem updatePositions_segments_length (c : IKChain) (head base : Sprite)
    (hh : c.headSprite = some head) (hb : c.baseSprite = some base)
    (hne : c.segments ≠ []) :
    (updatePositions c).segments.length = c.segments.length := by
  rw [updatePositions_segments c head base hh hb hne]
  have h := congrArg List.length (solveSegs_map_length c head base)
  rwa [List.length_map, List.length_map] at h

/-- Concrete two-segment chain (lengths `3` and `3`, base at the origin, head
at `(10, 0)`) used to exercise continuity on an interior joint. -/
noncomputable def chainB : IKChain :=
  { segments := [{ startX := 0, startY := 0, endX := 0, endY := 0, angle := 0, length := 3 },
                 { startX := 0, startY := 0, endX := 0, endY := 0, angle := 0, length := 3 }]
    headSprite := some ⟨10, 0⟩
    baseSprite := some ⟨0, 0⟩
    totalLength := 6
    thickness := 2
    color := 1
    jointSprites := []
    midSegmentSprites := [] }

theorem C5_witness :
    chainB.headSprite = some ⟨10, 0⟩ ∧ chainB.baseSprite = some ⟨0, 0⟩ ∧
    chainB.segments ≠ [] ∧
    (0 : ℕ) + 1 < (updatePositions chainB).segments.length ∧
    (((updatePositions chainB).segments.getD (0 + 1) default).startX
        = ((updatePositions chainB).segments.getD 0 default).endX ∧
      ((updatePositions chainB).segments.getD (0 + 1) default).startY
        = ((updatePositions chainB).segments.getD 0 default).endY) := by
  have hlen : (0 : ℕ) + 1 < (updatePositions chainB).segments.length := by
    rw [updatePositions_segments_length chainB ⟨10, 0⟩ ⟨0, 0⟩ rfl rfl (by simp [chainB])]
    simp [chainB]
  exact ⟨rfl, rfl, by simp [chainB], hlen,
    C5_continuity chainB ⟨10, 0⟩ ⟨0, 0⟩ rfl rfl (by simp [chainB]) 0 hlen⟩

/-- C3: when the target is farther from the base than the chain's total
length, one solver call lays the segments consecutively along the ray from
base `B` toward target `T` (each start and end at its prefix-sum of lengths
along the unit direction `(T - B)/|T - B|`), every segment keeps its own fixed
length exactly, and the end effector lands at exactly `totalLength` from `B`
along that direction — not at `T`. -/
theorem C3_unreachable_extension (c : IKChain) (head base : Sprite)
    (hh : c.headSprite = some head) (hb : c.baseSprite = some base)
    (hne : c.segments ≠ []) (hwf : wellFormed c)
    (hfar : norm2 (head.x - base.x) (head.y - base.y) > c.totalLength) :
    (∀ i : ℕ, i < (updatePositions c).segments.length →
      ((updatePositions c).segments.getD i default).startX
        = base.x + sumLen (c.segments.take i)
          * ((head.x - base.x) / norm2 (head.x - base.x) (head.y - base.y)) ∧
      ((updatePositions c).segments.getD i default).startY
        = base.y + sumLen (c.segments.take i)
          * ((head.y - base.y) / norm2 (head.x - base.x) (head.y - base.y)) ∧
      ((updatePositions c).segments.getD i default).endX
        = base.x + sumLen (c.segments.take (i + 1))
          * ((head.x - base.x) / norm2 (head.x - base.x) (head.y - base.y)) ∧
      ((updatePositions c).segments.getD i default).endY
        = base.y + sumLen (c.segments.take (i + 1))
          * ((head.y - base.y) / norm2 (head.x - base.x) (head.y - base.y)) ∧
      segDist ((updatePositions c).segments.getD i default)
        = ((updatePositions c).segments.getD i default).length) ∧
    norm2 (((updatePositions c).segments.getLastD default).endX - base.x)
      (((updatePositions c).segments.getLastD default).endY - base.y) = c.totalLength := by
  have hsegs : (updatePositions c).segments
      = extendChain (atan2 (head.y - base.y) (head.x - base.x)) base.x base.y c.segments := by
    rw [updatePositions_segments c head base hh hb hne, solveSegs, if_pos hfar]
  have htl0 : 0 ≤ c.totalLength := by
    rw [hwf.1]
    exact sumLen_nonneg _ fun s hs => (hwf.2 s hs).le
  have hdpos : 0 < norm2 (head.x - base.x) (head.y - base.y) := lt_of_le_of_lt htl0 hfar
  have hz : ¬(head.x - base.x = 0 ∧ head.y - base.y = 0) := by
    rintro ⟨h1, h2⟩
    rw [h1, h2] at hdpos
    simp [norm2] at hdpos
  have hcos : Real.cos (atan2 (head.y - base.y) (head.x - base.x))
      = (head.x - base.x) / norm2 (head.x - base.x) (head.y - base.y) := cos_atan2 hz
  have hsin : Real.sin (atan2 (head.y - base.y) (head.x - base.x))
      = (head.y - base.y) / norm2 (head.x - base.x) (head.y - base.y) := sin_atan2 _ _
  constructor
  · intro i hi
    rw [hsegs] at hi ⊢
    rw [extendChain_length] at hi
    obtain ⟨g1, g2, g3, g4, g5⟩ := extendChain_getD
      (atan2 (head.y - base.y) (head.x - base.x)) c.segments base.x base.y i hi
    refine ⟨?_, ?_, ?_, ?_, ?_⟩
    · rw [g1, hcos]; ring
    · rw [g2, hsin]; ring
    · rw [g3, hcos]; ring
    · rw [g4, hsin]; ring
    · have hdiff := sumLen_take_succ c.segments i hi
      have hmem : c.segments.getD i default ∈ c.segments := by
        rw [List.getD_eq_get _ _ hi]
        exact List.get_mem _ _ _
      rw [segDist, g3, g1, g4, g2, g5]
      rw [show base.x + Real.cos (atan2 (head.y - base.y) (head.x - base.x))
            * sumLen (c.segments.take (i + 1))
          - (base.x + Real.cos (atan2 (head.y - base.y) (head.x - base.x))
            * sumLen (c.segments.take i))
          = Real.cos (atan2 (head.y - base.y) (head.x - base.x))
            * (sumLen (c.segments.take (i + 1)) - sumLen (c.segments.take i)) by ring,
        show base.y + Real.sin (atan2 (head.y - base.y) (head.x - base.x))
            * sumLen (c.segments.take (i + 1))
          - (base.y + Real.sin (atan2 (head.y - base.y) (head.x - base.x))
            * sumLen (c.segments.take i))
          = Real.sin (atan2 (head.y - base.y) (head.x - base.x))
            * (sumLen (c.segments.take (i + 1)) - sumLen (c.segments.take i)) by ring,
        show sumLen (c.segments.take (i + 1)) - sumLen (c.segments.take i)
          = (c.segments.getD i default).length by rw [hdiff]; ring]
      rw [norm2_scale, norm2_cos_sin, mul_one,
        abs_of_nonneg (hwf.2 (c.segments.getD i default) hmem).le]
  · rw [hsegs]
    obtain ⟨hx, hy⟩ := extendChain_lastEnd
      (atan2 (head.y - base.y) (head.x - base.x)) c.segments base.x base.y hne
    rw [hx, hy]
    rw [show base.x + Real.cos (atan2 (head.y - base.y) (head.x - base.x))
          * sumLen c.segments - base.x
        = Real.cos (atan2 (head.y - base.y) (head.x - base.x)) * sumLen c.segments by ring,
      show base.y + Real.sin (atan2 (head.y - base.y) (head.x - base.x))
          * sumLen c.segments - base.y
        = Real.sin (atan2 (head.y - base.y) (head.x - base.x)) * sumLen c.segments by ring]
    rw [norm2_scale, norm2_cos_sin, mul_one,
      abs_of_nonneg (sumLen_nonneg _ fun s hs => (hwf.2 s hs).le), hwf.1]

theorem C3_witness :
    chainA.headSprite = some ⟨5, 0⟩ ∧ chainA.baseSprite = some ⟨0, 0⟩ ∧
    chainA.segments ≠ [] ∧ wellFormed chainA ∧
    norm2 (Sprite.x ⟨5, 0⟩ - Sprite.x ⟨0, 0⟩) (Sprite.y ⟨5, 0⟩ - Sprite.y ⟨0, 0⟩)
      > chainA.totalLength ∧
    norm2 (((updatePositions chainA).segments.getLastD default).endX - Sprite.x ⟨0, 0⟩)
      (((updatePositions chainA).segments.getLastD default).endY - Sprite.y ⟨0, 0⟩)
      = chainA.totalLength := by
  have hfar : norm2 (Sprite.x ⟨5, 0⟩ - Sprite.x ⟨0, 0⟩) (Sprite.y ⟨5, 0⟩ - Sprite.y ⟨0, 0⟩)
      > chainA.totalLength := by
    show norm2 ((5 : ℝ) - 0) ((0 : ℝ) - 0) > (3 : ℝ)
    rw [chainA_norm]
    norm_num
  have hwfA : wellFormed chainA := ⟨by simp [chainA, sumLen], by simp [chainA]⟩
  exact ⟨rfl, rfl, by simp [chainA], hwfA, hfar,
    (C3_unreachable_extension chainA ⟨5, 0⟩ ⟨0, 0⟩ rfl rfl (by simp [chainA]) hwfA hfar).2⟩

theorem updatePositions_joint_get? (c : IKChain) (head base : Sprite)
    (hh : c.headSprite = some head) (hb : c.baseSprite = some base)
    (hne : c.segments ≠ []) (k : ℕ) :
    (updatePositions c).jointSprites.get? k
      = (c.jointSprites.get? k).map (Option.map fun s =>
          { s with
            x := (jointPos (updatePositions c) k).1
            y := (jointPos (updatePositions c) k).2 }) := by
  have heq := updatePositions_eq c head base hh hb hne
  set c1 : IKChain :=
    { c with
      segments := solveSegs c head base
      headSprite := some
        { head with
          x := ((solveSegs c head base).getLastD default).endX
          y := ((solveSegs c head base).getLastD default).endY } } with hc1
  conv_lhs => rw [heq]
  rw [(syncMidSegmentSprites_spec (syncJointSprites c1)).2.2.2.2.2.2.1]
  rw [(syncJointSprites_spec c1).2.2.2.2.2.2.2 k]
  have hjp : jointPos c1 = jointPos (updatePositions c) := by
    refine jointPos_congr ?_ ?_
    · rw [heq, (syncMidSegmentSprites_spec _).1, (syncJointSprites_spec _).1]
    · rw [heq, (syncMidSegmentSprites_spec _).2.2.1, (syncJointSprites_spec _).2.2.1]
  rw [hjp]

/-- C8: after the attachment sync performed by a solver call, the sprite bound
at joint `0` holds the base anchor's position, the sprite at joint
`segments.length` holds the end effector (the last segment's end), and the
sprite at any other registered joint `k` holds segment `k - 1`'s end point. -/
theorem C8_joint_attachment (c : IKChain) (head base : Sprite)
    (hh : c.headSprite = some head) (hb : c.baseSprite = some base)
    (hne : c.segments ≠ []) :
    ∀ (k : ℕ) (sp : Sprite),
      (updatePositions c).jointSprites.get? k = some (some sp) →
      (k = 0 → sp.x = base.x ∧ sp.y = base.y) ∧
      (k ≠ 0 → k = (updatePositions c).segments.length →
        sp.x = ((updatePositions c).segments.getLastD default).endX ∧
        sp.y = ((updatePositions c).segments.getLastD default).endY) ∧
      (k ≠ 0 → k ≠ (updatePositions c).segments.length →
        sp.x = ((updatePositions c).segments.getD (k - 1) default).endX ∧
        sp.y = ((updatePositions c).segments.getD (k - 1) default).endY) := by
  intro k sp hk
  rw [updatePositions_joint_get? c head base hh hb hne k] at hk
  cases hj : c.jointSprites.get? k with
  | none =>
    rw [hj] at hk
    exact absurd hk (by simp)
  | some o =>
    cases o with
    | none =>
      rw [hj] at hk
      exact absurd hk (by simp)
    | some s0 =>
      rw [hj] at hk
      simp only [Option.map_some'] at hk
      have hsp := (Option.some.inj (Option.some.inj hk)).symm
      have hx : sp.x = (jointPos (updatePositions c) k).1 := by rw [hsp]
      have hy : sp.y = (jointPos (updatePositions c) k).2 := by rw [hsp]
      clear hk hsp
      refine ⟨?_, ?_, ?_⟩
      · intro hk0
        subst hk0
        have hbase2 : (updatePositions c).baseSprite = some base := by
          rw [(updatePositions_frame c).1, hb]
        have hpq : jointPos (updatePositions c) 0 = (base.x, base.y) := by
          rw [jointPos, if_pos rfl, hbase2]
          rfl
        rw [hx, hy, hpq]
        exact ⟨rfl, rfl⟩
      · intro hk0 hkn
        have hpq : jointPos (updatePositions c) k
            = (((updatePositions c).segments.getLastD default).endX,
               ((updatePositions c).segments.getLastD default).endY) := by
          rw [jointPos, if_neg hk0, if_pos hkn]
        rw [hx, hy, hpq]
        exact ⟨rfl, rfl⟩
      · intro hk0 hkn
        have hpq : jointPos (updatePositions c) k
            = (((updatePositions c).segments.getD (k - 1) default).endX,
               ((updatePositions c).segments.getD (k - 1) default).endY) := by
          rw [jointPos, if_neg hk0, if_neg hkn]
        rw [hx, hy, hpq]
        exact ⟨rfl, rfl⟩

/-- Concrete one-segment chain with a registered joint sprite: base at
`(1, 2)`, head at `(6, 2)`, a sprite (initially at `(9, 9)`) bound at joint
`0`.  A solver call moves that sprite onto the base anchor. -/
noncomputable def chainC : IKChain :=
  { segments := [{ startX := 0, startY := 0, endX := 0, endY := 0, angle := 0, length := 3 }]
    headSprite := some ⟨6, 2⟩
    baseSprite := some ⟨1, 2⟩
    totalLength := 3
    thickness := 2
    color := 1
    jointSprites := [some ⟨9, 9⟩]
    midSegmentSprites := [] }

theorem chainC_joint0 : (updatePositions chainC).jointSprites.get? 0
    = some (some ⟨1, 2⟩) := by
  rw [updatePositions_joint_get? chainC ⟨6, 2⟩ ⟨1, 2⟩ rfl rfl (by simp [chainC]) 0]
  have hjp : jointPos (updatePositions chainC) 0 = ((1 : ℝ), (2 : ℝ)) := by
    rw [jointPos, if_pos rfl, (updatePositions_frame chainC).1]
    rfl
  rw [hjp]
  rfl

theorem C8_witness :
    chainC.headSprite = some ⟨6, 2⟩ ∧ chainC.baseSprite = some ⟨1, 2⟩ ∧
    chainC.segments ≠ [] ∧
    (updatePositions chainC).jointSprites.get? 0 = some (some ⟨1, 2⟩) ∧
    (Sprite.x ⟨1, 2⟩ = Sprite.x ⟨1, 2⟩ ∧ Sprite.y ⟨1, 2⟩ = Sprite.y ⟨1, 2⟩) :=
  ⟨rfl, rfl, by simp [chainC], chainC_joint0,
    (C8_joint_attachment chainC ⟨6, 2⟩ ⟨1, 2⟩ rfl rfl (by simp [chainC])
      0 ⟨1, 2⟩ chainC_joint0).1 rfl⟩

theorem updatePositions_mid_get? (c : IKChain) (head base : Sprite)
    (hh : c.headSprite = some head) (hb : c.baseSprite = some base)
    (hne : c.segments ≠ []) (k : ℕ) :
    (updatePositions c).midSegmentSprites.get? k
      = (c.midSegmentSprites.get? k).map (fun info =>
          { info with sprite :=
            { info.sprite with
              x := (midPoint (updatePositions c) info).1
              y := (midPoint (updatePositions c) info).2 } }) := by
  have heq := updatePositions_eq c head base hh hb hne
  set c1 : IKChain :=
    { c with
      segments := solveSegs c head base
      headSprite := some
        { head with
          x := ((solveSegs c head base).getLastD default).endX
          y := ((solveSegs c head base).getLastD default).endY } } with hc1
  conv_lhs => rw [heq]
  rw [(syncMidSegmentSprites_spec (syncJointSprites c1)).2.2.2.2.2.2.2 k]
  rw [(syncJointSprites_spec c1).2.2.2.2.2.2.1]
  have hmp : midPoint (syncJointSprites c1) = midPoint (updatePositions c) := by
    refine midPoint_congr ?_
    rw [heq, (syncMidSegmentSprites_spec _).1]
  rw [hmp]

/-- C1, amended: a solver call mutates the chain's segment geometry, writes
the head sprite (snapped onto the end effector) and syncs the joint and
mid-segment attachment sprites in the same call; it has no side effects
beyond those: the base sprite, `totalLength`, `thickness` and `color` are
untouched, and each attachment list keeps exactly its entries, every bound
sprite merely moved to its synced coordinate. -/
theorem C1_amended_effects (c : IKChain) (head base : Sprite)
    (hh : c.headSprite = some head) (hb : c.baseSprite = some base)
    (hne : c.segments ≠ []) :
    (updatePositions c).baseSprite = c.baseSprite ∧
    (updatePositions c).totalLength = c.totalLength ∧
    (updatePositions c).thickness = c.thickness ∧
    (updatePositions c).color = c.color ∧
    (updatePositions c).headSprite = some
      { head with
        x := ((updatePositions c).segments.getLastD default).endX
        y := ((updatePositions c).segments.getLastD default).endY } ∧
    (∀ k : ℕ, (updatePositions c).jointSprites.get? k
      = (c.jointSprites.get? k).map (Option.map fun s =>
          { s with
            x := (jointPos (updatePositions c) k).1
            y := (jointPos (updatePositions c) k).2 })) ∧
    (∀ k : ℕ, (updatePositions c).midSegmentSprites.get? k
      = (c.midSegmentSprites.get? k).map (fun info =>
          { info with sprite :=
            { info.sprite with
              x := (midPoint (updatePositions c) info).1
              y := (midPoint (updatePositions c) info).2 } })) := by
  obtain ⟨f1, f2, f3, f4⟩ := updatePositions_frame c
  refine ⟨f1, f2, f3, f4, ?_, ?_, ?_⟩
  · rw [updatePositions_headSprite c head base hh hb hne,
      updatePositions_segments c head base hh hb hne]
  · exact updatePositions_joint_get? c head base hh hb hne
  · exact updatePositions_mid_get? c head base hh hb hne

theorem C1_witness :
    chainA.headSprite = some ⟨5, 0⟩ ∧ chainA.baseSprite = some ⟨0, 0⟩ ∧
    chainA.segments ≠ [] ∧
    ((updatePositions chainA).baseSprite = chainA.baseSprite ∧
     (updatePositions chainA).totalLength = chainA.totalLength ∧
     (updatePositions chainA).thickness = chainA.thickness ∧
     (updatePositions chainA).color = chainA.color ∧
     (updatePositions chainA).headSprite = some
       { (⟨5, 0⟩ : Sprite) with
         x := ((updatePositions chainA).segments.getLastD default).endX
         y := ((updatePositions chainA).segments.getLastD default).endY } ∧
     (∀ k : ℕ, (updatePositions chainA).jointSprites.get? k
       = (chainA.jointSprites.get? k).map (Option.map fun s =>
           { s with
             x := (jointPos (updatePositions chainA) k).1
             y := (jointPos (updatePositions chainA) k).2 })) ∧
     (∀ k : ℕ, (updatePositions chainA).midSegmentSprites.get? k
       = (chainA.midSegmentSprites.get? k).map (fun info =>
           { info with sprite :=
             { info.sprite with
               x := (midPoint (updatePositions chainA) info).1
               y := (midPoint (updatePositions chainA) info).2 } }))) :=
  ⟨rfl, rfl, by simp [chainA],
    C1_amended_effects chainA ⟨5, 0⟩ ⟨0, 0⟩ rfl rfl (by simp [chainA])⟩

end ikchain
